import Mathlib

/-!
Shutdown coordination: the package `graceful` (`graceful.go`).

A shallow embedding of `graceful.go` as an interleaving transition system.

Every goroutine of the source is a small program counter; one scheduler label
lets exactly one goroutine perform its next statement.  The statements are
those of the source:

* `Prepare`  : builds the group, the two derived contexts and the two
  background goroutines (error bridge, done observer);
* `Process` / `Close` : `wg.Add(1)` and a spawned goroutine
  `defer wg.Done(); if err := fn(target); err != nil { errors <- err }`;
* `Wait` : spawns the `wg.Wait(); close(done)` goroutine, races `done`
  against `time.After(timeout)`, then `close(g.errors)`.

Library semantics used (Go `context`, `os/signal`, `sync`, channels):
a context derived from a cancelled parent is born cancelled, cancelling a
context cancels its children in the same call, `errors` is unbuffered (a send
completes together with the matching receive), a send on a closed channel
panics, deferred calls run while panicking, and an unrecovered panic ends the
process.  A session has one `Wait` call.
-/

namespace Graceful

/-- A non-nil Go `error` value, identified by a code; `Option Err` is Go's
`error` with `none` for `nil`. -/
abbrev Err := Nat

/-- Program counter of a goroutine spawned by `Process` or `Close`. -/
inductive UnitPc
  | running
  | sending (e : Err)
  | deferred
  | finished
  | panicked
deriving DecidableEq, Repr

/-- The statement a unit goroutine performs next. -/
inductive UnitOp
  | ret (r : Option Err)
  | send (e : Err)
  | done
deriving DecidableEq, Repr

/-- A registered unit: `ret` is the value of `fn(target)`, `pc` the goroutine's
position, `viaClose` tells which of the two registration functions spawned it. -/
structure GoUnit where
  viaClose : Bool
  ret : Option Err
  pc : UnitPc
deriving DecidableEq, Repr

/-- Program counter of the bridge goroutine `for err := range group.errors`. -/
inductive BridgePc
  | receiving
  | calling (e : Err)
  | cancelling
  | exited
deriving DecidableEq, Repr

/-- Program counter of the goroutine inside `signal.NotifyContext`. -/
inductive ListenerPc
  | absent
  | listening
  | exited
deriving DecidableEq, Repr

/-- Program counter of the goroutine `<-shutdownCtx.Done(); stop()`. -/
inductive ObserverPc
  | blocked
  | exited
deriving DecidableEq, Repr

/-- Program counter of the caller inside `Wait`. -/
inductive WaitPc
  | idle
  | selecting
  | closing
  | returned
deriving DecidableEq, Repr

/-- Program counter of the goroutine `g.wg.Wait(); close(done)`. -/
inductive WaiterPc
  | absent
  | blocked
  | woken
  | exited
deriving DecidableEq, Repr

/-- Observable actions, recorded in program order. -/
inductive Event
  | add
  | ret (i : Nat) (r : Option Err)
  | send (i : Nat) (e : Err)
  | sendClosed (i : Nat) (e : Err)
  | done (i : Nat)
  | hook (e : Err)
  | cancel
  | parentCancel
  | signal
  | stop
  | waitCall (timeout : Int)
  | logAllClosed
  | logTimeout
  | closeDone
  | closeErrors
deriving DecidableEq, Repr

/-- The `CloseGroup` struct: the `sync.WaitGroup` counter and the state of the
unbuffered `errors` channel.  The `onError` hook is the recorded `hook` event. -/
structure CloseGroup where
  wg : Int
  errorsClosed : Bool
deriving DecidableEq, Repr

/-- Whole state of one coordination session. -/
structure Session where
  group : CloseGroup
  units : List GoUnit
  bridge : BridgePc
  parentDone : Bool
  sigDone : Bool
  shutdownDone : Bool
  subscribed : Bool
  listener : ListenerPc
  observer : ObserverPc
  wait : WaitPc
  waiter : WaiterPc
  doneClosed : Bool
  now : Nat
  deadline : Int
  crashed : Bool
  trace : List Event
deriving DecidableEq, Repr

/-- Scheduler choices: which call is made or which goroutine runs next. -/
inductive Label
  | process (ret : Option Err)
  | close (ret : Option Err)
  | unit (i : Nat)
  | bridge
  | parentCancel
  | osSignal
  | listener
  | observer
  | wait (timeout : Int)
  | waiter
  | selectDone
  | selectTimeout
  | closeErrors
  | tick
deriving DecidableEq, Repr

/-- `Prepare(ctx)`: `ctx` is the parent's cancelled flag at the call.
`signal.NotifyContext` derives `sigCtx` (born cancelled when the parent is, in
which case no listener goroutine is started); `context.WithCancel(sigCtx)`
derives `shutdownCtx`; the bridge and the observer are spawned. -/
def Prepare (ctx : Bool) : Session :=
  { group := { wg := 0, errorsClosed := false }
    units := []
    bridge := .receiving
    parentDone := ctx
    sigDone := ctx
    shutdownDone := ctx
    subscribed := true
    listener := if ctx then .absent else .listening
    observer := .blocked
    wait := .idle
    waiter := .absent
    doneClosed := false
    now := 0
    deadline := 0
    crashed := false
    trace := [] }

/-- `cancel()` of `shutdownCtx`. -/
def cancelShutdown (s : Session) : Session :=
  { s with shutdownDone := true }

/-- `cancel()` of `sigCtx`: also cancels its child `shutdownCtx`. -/
def cancelSig (s : Session) : Session :=
  { s with sigDone := true, shutdownDone := true }

/-- Cancellation of the parent context: reaches both derived contexts. -/
def cancelParent (s : Session) : Session :=
  { s with parentDone := true, sigDone := true, shutdownDone := true,
           trace := s.trace ++ [.parentCancel] }

/-- `Process(group, target, fn)`: `group.wg.Add(1)` and `go func() {...}()`. -/
def Process {T : Type} (s : Session) (target : T) (fn : T → Option Err) : Session :=
  { s with group := { s.group with wg := s.group.wg + 1 }
           units := s.units ++ [{ viaClose := false, ret := fn target, pc := .running }]
           trace := s.trace ++ [.add] }

/-- `Close(group, target, fn)`: `group.wg.Add(1)` and `go func() {...}()`. -/
def Close {T : Type} (s : Session) (target : T) (fn : T → Option Err) : Session :=
  { s with group := { s.group with wg := s.group.wg + 1 }
           units := s.units ++ [{ viaClose := true, ret := fn target, pc := .running }]
           trace := s.trace ++ [.add] }

/-- Goroutine body of `Process` (lines 55-60), one statement at a time:
`fn(target)` returns, then the send when the error is non-nil, then the
deferred `wg.Done()`. -/
def processGo (ret : Option Err) : UnitPc → Option (UnitOp × UnitPc)
  | .running =>
    match ret with
    | some e => some (.ret (some e), .sending e)
    | none => some (.ret none, .deferred)
  | .sending e => some (.send e, .deferred)
  | .deferred => some (.done, .finished)
  | .finished => none
  | .panicked => none

/-- Goroutine body of `Close` (lines 66-71), one statement at a time. -/
def closeGo (ret : Option Err) : UnitPc → Option (UnitOp × UnitPc)
  | .running =>
    match ret with
    | some e => some (.ret (some e), .sending e)
    | none => some (.ret none, .deferred)
  | .sending e => some (.send e, .deferred)
  | .deferred => some (.done, .finished)
  | .finished => none
  | .panicked => none

/-- The body a unit runs. -/
def unitGo (u : GoUnit) : Option (UnitOp × UnitPc) :=
  if u.viaClose then closeGo u.ret u.pc else processGo u.ret u.pc

/-- One statement of unit `i`.  A send needs the bridge at its receive (the
channel is unbuffered); on a closed channel it panics: the deferred
`wg.Done()` runs and the process dies. -/
def stepUnit (s : Session) (i : Nat) : Option Session :=
  match s.units[i]? with
  | none => none
  | some u =>
    match unitGo u with
    | none => none
    | some (.ret r, pc) =>
      some { s with units := s.units.set i { u with pc := pc }
                    trace := s.trace ++ [.ret i r] }
    | some (.send e, pc) =>
      if s.group.errorsClosed then
        some { s with group := { s.group with wg := s.group.wg - 1 }
                      units := s.units.set i { u with pc := .panicked }
                      crashed := true
                      trace := s.trace ++ [.sendClosed i e, .done i] }
      else if s.bridge = .receiving then
        some { s with units := s.units.set i { u with pc := pc }
                      bridge := .calling e
                      trace := s.trace ++ [.send i e] }
      else none
    | some (.done, pc) =>
      some { s with group := { s.group with wg := s.group.wg - 1 }
                    units := s.units.set i { u with pc := pc }
                    trace := s.trace ++ [.done i] }

/-- One statement of the bridge: `group.onError(err)`, then `cancel()`, then
back to the receive; the loop ends when the channel is closed. -/
def stepBridge (s : Session) : Option Session :=
  match s.bridge with
  | .receiving =>
    if s.group.errorsClosed then some { s with bridge := .exited } else none
  | .calling e =>
    some { s with bridge := .cancelling, trace := s.trace ++ [.hook e] }
  | .cancelling =>
    some { cancelShutdown s with bridge := .receiving, trace := s.trace ++ [.cancel] }
  | .exited => none

/-- The listener takes `case <-c.ch: c.cancel()`. -/
def stepSignal (s : Session) : Option Session :=
  if s.subscribed ∧ s.listener = .listening then
    some { cancelSig s with listener := .exited, trace := s.trace ++ [.signal] }
  else none

/-- The listener takes `case <-c.Done():`. -/
def stepListener (s : Session) : Option Session :=
  if s.listener = .listening ∧ s.sigDone then some { s with listener := .exited }
  else none

/-- The observer passes `<-shutdownCtx.Done()` and calls `stop()`, which
cancels `sigCtx` and ends the signal subscription. -/
def stepObserver (s : Session) : Option Session :=
  if s.observer = .blocked ∧ s.shutdownDone then
    some { cancelSig s with subscribed := false, observer := .exited
                            trace := s.trace ++ [.stop] }
  else none

/-- Entry of `Wait(timeout)`: `done` is made, the waiter goroutine is spawned
and the timer of `time.After(timeout)` is started. -/
def Wait (s : Session) (timeout : Int) : Option Session :=
  if s.wait = .idle then
    some { s with wait := .selecting, waiter := .blocked, doneClosed := false
                  deadline := (s.now : Int) + timeout
                  trace := s.trace ++ [.waitCall timeout] }
  else none

/-- The waiter goroutine: `g.wg.Wait()` returns at counter zero, then
`close(done)`. -/
def stepWaiter (s : Session) : Option Session :=
  match s.waiter with
  | .blocked => if s.group.wg = 0 then some { s with waiter := .woken } else none
  | .woken =>
    some { s with waiter := .exited, doneClosed := true
                  trace := s.trace ++ [.closeDone] }
  | _ => none

/-- The `select` takes `case <-done:`. -/
def waitSelectDone (s : Session) : Option Session :=
  if s.wait = .selecting ∧ s.doneClosed then
    some { s with wait := .closing, trace := s.trace ++ [.logAllClosed] }
  else none

/-- The `select` takes `case <-time.After(timeout):`. -/
def waitSelectTimeout (s : Session) : Option Session :=
  if s.wait = .selecting ∧ s.deadline ≤ (s.now : Int) then
    some { s with wait := .closing, trace := s.trace ++ [.logTimeout] }
  else none

/-- The last statement of `Wait`: `close(g.errors)`. -/
def waitClose (s : Session) : Option Session :=
  if s.wait = .closing then
    some { s with group := { s.group with errorsClosed := true }
                  wait := .returned
                  trace := s.trace ++ [.closeErrors] }
  else none

/-- The transition a label stands for, when enabled. -/
def step? (s : Session) (l : Label) : Option Session :=
  if s.crashed then none
  else
    match l with
    | .process r => some (Process s () (fun _ => r))
    | .close r => some (Close s () (fun _ => r))
    | .unit i => stepUnit s i
    | .bridge => stepBridge s
    | .parentCancel => some (cancelParent s)
    | .osSignal => stepSignal s
    | .listener => stepListener s
    | .observer => stepObserver s
    | .wait t => Wait s t
    | .waiter => stepWaiter s
    | .selectDone => waitSelectDone s
    | .selectTimeout => waitSelectTimeout s
    | .closeErrors => waitClose s
    | .tick => some { s with now := s.now + 1 }

/-- A label that is not enabled leaves the state as it is. -/
def step (s : Session) (l : Label) : Session :=
  (step? s l).getD s

/-- Execution of a schedule. -/
def exec (s : Session) (ls : List Label) : Session :=
  ls.foldl step s

/-! ## Observations on states, traces and schedules -/

/-- The unit's goroutine has ended: normally, or by the panic of its send. -/
def completed (u : GoUnit) : Bool :=
  decide (u.pc = .finished ∨ u.pc = .panicked)

/-- Number of registered units whose goroutine has not ended. -/
def outstanding (us : List GoUnit) : Nat :=
  (us.filter (fun u => !completed u)).length

/-- Number of registered units whose goroutine has ended. -/
def completedCount (us : List GoUnit) : Nat :=
  (us.filter completed).length

/-- The label is a call of `Process` or `Close`. -/
def Label.isReg : Label → Bool
  | .process _ => true
  | .close _ => true
  | _ => false

/-- What the bridge goroutine does, in its own program order. -/
inductive BridgeAct
  | recv (e : Err)
  | hook (e : Err)
  | cancel
deriving DecidableEq, Repr

/-- The bridge's part of a trace: a completed send is its receive. -/
def bridgeView : List Event → List BridgeAct
  | [] => []
  | .send _ e :: t => .recv e :: bridgeView t
  | .hook e :: t => .hook e :: bridgeView t
  | .cancel :: t => .cancel :: bridgeView t
  | _ :: t => bridgeView t

/-- The errors received from the channel, in order of receipt. -/
def received : List Event → List Err
  | [] => []
  | .send _ e :: t => e :: received t
  | _ :: t => received t

/-- What the bridge still has to do for the error it holds. -/
def bridgePending : BridgePc → List BridgeAct
  | .calling e => [.hook e, .cancel]
  | .cancelling => [.cancel]
  | _ => []

/-- The hook calls of a trace, in order. -/
def hookCalls : List Event → List Err
  | [] => []
  | .hook e :: t => e :: hookCalls t
  | _ :: t => hookCalls t

/-- The part of a trace performed by the caller inside `Wait`. -/
def waitView : List Event → List Event
  | [] => []
  | .waitCall t :: r => .waitCall t :: waitView r
  | .logAllClosed :: r => .logAllClosed :: waitView r
  | .logTimeout :: r => .logTimeout :: waitView r
  | .closeErrors :: r => .closeErrors :: waitView r
  | _ :: r => waitView r

/-- The errors unit `i` handed over on the channel. -/
def sendsOf (i : Nat) : List Event → List Err
  | [] => []
  | .send j e :: t => if j = i then e :: sendsOf i t else sendsOf i t
  | _ :: t => sendsOf i t

/-- The errors unit `i` tried to send on the closed channel. -/
def closedSendsOf (i : Nat) : List Event → List Err
  | [] => []
  | .sendClosed j e :: t => if j = i then e :: closedSendsOf i t else closedSendsOf i t
  | _ :: t => closedSendsOf i t

/-- Every registration of the schedule is made while `Wait` has not been
called. -/
def regsBeforeWait (s : Session) : List Label → Bool
  | [] => true
  | l :: ls => (!l.isReg || decide (s.wait = .idle)) && regsBeforeWait (step s l) ls

/-- The counter values along a schedule, the starting value first. -/
def wgHistory (s : Session) : List Label → List Int
  | [] => [s.group.wg]
  | l :: ls => s.group.wg :: wgHistory (step s l) ls

/-- Number of places where the values go from positive to zero. -/
def drops : List Int → Nat
  | a :: b :: t => (if 0 < a ∧ b = 0 then 1 else 0) + drops (b :: t)
  | _ => 0

/-- No registration of the schedule is made once the counter has come back
to zero, that is with units registered and the counter at zero. -/
def regsBeforeZero (s : Session) : List Label → Bool
  | [] => true
  | l :: ls =>
    (!l.isReg || decide (s.group.wg ≠ 0) || decide (s.units = []))
      && regsBeforeZero (step s l) ls

/-! ## The transitions as a relation -/

/-- The enabled statements of unit `i`, with the state each one leads to. -/
inductive UnitStep (s : Session) (i : Nat) : Session → Prop
  | ret (u : GoUnit) (hu : s.units[i]? = some u) (hpc : u.pc = .running) (e : Err)
      (hr : u.ret = some e) :
      UnitStep s i { s with units := s.units.set i { u with pc := .sending e }
                            trace := s.trace ++ [.ret i (some e)] }
  | retNil (u : GoUnit) (hu : s.units[i]? = some u) (hpc : u.pc = .running)
      (hr : u.ret = none) :
      UnitStep s i { s with units := s.units.set i { u with pc := .deferred }
                            trace := s.trace ++ [.ret i none] }
  | panic (u : GoUnit) (hu : s.units[i]? = some u) (e : Err) (hpc : u.pc = .sending e)
      (hc : s.group.errorsClosed = true) :
      UnitStep s i { s with group := { s.group with wg := s.group.wg - 1 }
                            units := s.units.set i { u with pc := .panicked }
                            crashed := true
                            trace := s.trace ++ [.sendClosed i e, .done i] }
  | send (u : GoUnit) (hu : s.units[i]? = some u) (e : Err) (hpc : u.pc = .sending e)
      (hc : s.group.errorsClosed = false) (hb : s.bridge = .receiving) :
      UnitStep s i { s with units := s.units.set i { u with pc := .deferred }
                            bridge := .calling e
                            trace := s.trace ++ [.send i e] }
  | done (u : GoUnit) (hu : s.units[i]? = some u) (hpc : u.pc = .deferred) :
      UnitStep s i { s with group := { s.group with wg := s.group.wg - 1 }
                            units := s.units.set i { u with pc := .finished }
                            trace := s.trace ++ [.done i] }

/-- The enabled transitions of a state that has not crashed. -/
inductive Step (s : Session) : Label → Session → Prop
  | process (r : Option Err) : Step s (.process r) (Process s () (fun _ => r))
  | close (r : Option Err) : Step s (.close r) (Close s () (fun _ => r))
  | unit (i : Nat) (t : Session) (h : UnitStep s i t) : Step s (.unit i) t
  | bridgeExit (hb : s.bridge = .receiving) (hc : s.group.errorsClosed = true) :
      Step s .bridge { s with bridge := .exited }
  | bridgeHook (e : Err) (hb : s.bridge = .calling e) :
      Step s .bridge { s with bridge := .cancelling, trace := s.trace ++ [.hook e] }
  | bridgeCancel (hb : s.bridge = .cancelling) :
      Step s .bridge
        { cancelShutdown s with bridge := .receiving, trace := s.trace ++ [.cancel] }
  | parentCancel : Step s .parentCancel (cancelParent s)
  | osSignal (hs : s.subscribed = true) (hl : s.listener = .listening) :
      Step s .osSignal
        { cancelSig s with listener := .exited, trace := s.trace ++ [.signal] }
  | listener (hl : s.listener = .listening) (hd : s.sigDone = true) :
      Step s .listener { s with listener := .exited }
  | observer (ho : s.observer = .blocked) (hd : s.shutdownDone = true) :
      Step s .observer
        { cancelSig s with subscribed := false, observer := .exited
                           trace := s.trace ++ [.stop] }
  | wait (t : Int) (hw : s.wait = .idle) :
      Step s (.wait t)
        { s with wait := .selecting, waiter := .blocked, doneClosed := false
                 deadline := (s.now : Int) + t
                 trace := s.trace ++ [.waitCall t] }
  | waiterWake (hw : s.waiter = .blocked) (h0 : s.group.wg = 0) :
      Step s .waiter { s with waiter := .woken }
  | waiterClose (hw : s.waiter = .woken) :
      Step s .waiter
        { s with waiter := .exited, doneClosed := true
                 trace := s.trace ++ [.closeDone] }
  | selectDone (hw : s.wait = .selecting) (hd : s.doneClosed = true) :
      Step s .selectDone
        { s with wait := .closing, trace := s.trace ++ [.logAllClosed] }
  | selectTimeout (hw : s.wait = .selecting) (hd : s.deadline ≤ (s.now : Int)) :
      Step s .selectTimeout
        { s with wait := .closing, trace := s.trace ++ [.logTimeout] }
  | closeErrors (hw : s.wait = .closing) :
      Step s .closeErrors
        { s with group := { s.group with errorsClosed := true }
                 wait := .returned
                 trace := s.trace ++ [.closeErrors] }
  | tick : Step s .tick { s with now := s.now + 1 }

/-- What the trace holds about unit `i` in state `u`. -/
structure UnitFacts (i : Nat) (tr : List Event) (u : GoUnit) : Prop where
  sending : ∀ e, u.pc = .sending e → u.ret = some e
  panicked : u.pc = .panicked → u.ret ≠ none
  sends : sendsOf i tr = if u.pc = .deferred ∨ u.pc = .finished then u.ret.toList else []
  closed : closedSendsOf i tr = if u.pc = .panicked then u.ret.toList else []
  dones : tr.count (.done i) = if completed u then 1 else 0
  rets : u.pc ≠ .running → .ret i u.ret ∈ tr

/-- The trace agrees with every unit, and holds nothing about absent units. -/
structure UnitsInv (s : Session) : Prop where
  present : ∀ i u, s.units[i]? = some u → UnitFacts i s.trace u
  absent : ∀ i, s.units.length ≤ i →
    sendsOf i s.trace = [] ∧ closedSendsOf i s.trace = [] ∧ s.trace.count (.done i) = 0
  adds : s.trace.count .add = s.units.length

/-- The three contexts and the events that cancel them. -/
structure CtxInv (s : Session) : Prop where
  parent : s.parentDone = true → s.sigDone = true
  sig : s.sigDone = true → s.shutdownDone = true
  parentEv : Event.parentCancel ∈ s.trace → s.parentDone = true
  cancel : Event.cancel ∈ s.trace → s.shutdownDone = true
  signal : Event.signal ∈ s.trace → s.shutdownDone = true
  stop : Event.stop ∈ s.trace → s.shutdownDone = true

/-- The bridge handles what it receives, one error at a time. -/
structure BridgeInv (s : Session) : Prop where
  view : bridgeView s.trace ++ bridgePending s.bridge
    = (received s.trace).flatMap (fun e => [.recv e, .hook e, .cancel])
  hooks : hookCalls s.trace ++ (match s.bridge with | .calling e => [e] | _ => [])
    = received s.trace
  exited : s.bridge = .exited → s.group.errorsClosed = true

/-- The caller inside `Wait`, the waiter goroutine and the channel `done`. -/
structure WaitInv (s : Session) : Prop where
  idle : s.wait = .idle → waitView s.trace = []
  selecting : s.wait = .selecting → ∃ t, waitView s.trace = [.waitCall t]
  closing : s.wait = .closing → ∃ t b, (b = Event.logAllClosed ∨ b = Event.logTimeout) ∧
    waitView s.trace = [.waitCall t, b]
  returned : s.wait = .returned → ∃ t b, (b = Event.logAllClosed ∨ b = Event.logTimeout) ∧
    waitView s.trace = [.waitCall t, b, .closeErrors]
  closed : s.group.errorsClosed = true ↔ s.wait = .returned
  crashed : s.crashed = true → s.group.errorsClosed = true
  absent : s.wait = .idle → s.waiter = .absent
  doneClosed : s.doneClosed = true → s.waiter = .exited
  allClosed : Event.logAllClosed ∈ s.trace → s.doneClosed = true
  panicked : ∀ u ∈ s.units, u.pc = .panicked → s.crashed = true
  closedSend : ∀ i e, Event.sendClosed i e ∈ s.trace → s.crashed = true

/-- Everything that holds in every state of a session. -/
structure SessionInv (s : Session) : Prop where
  counter : s.group.wg = (outstanding s.units : Int)
  units : UnitsInv s
  ctx : CtxInv s
  bridge : BridgeInv s
  wait : WaitInv s

/-- The unit has gone past its send statement. -/
def pastSend (u : GoUnit) : Bool :=
  decide (u.pc = .deferred ∨ u.pc = .finished ∨ u.pc = .panicked)

/-- The state with the record of which registration function spawned each
unit erased. -/
def untag (s : Session) : Session :=
  { s with units := s.units.map (fun u => { u with viaClose := false }) }

/-- The schedule label with `Close` replaced by `Process`. -/
def Label.asProcess : Label → Label
  | .close r => .process r
  | l => l

/-- Once the waiter goroutine has seen the counter at zero, every registered
unit has finished. -/
def Quiet (s : Session) : Prop :=
  (s.waiter = .woken ∨ s.waiter = .exited) → ∀ u ∈ s.units, u.pc = .finished

/-- In the trace, each `wg.Done()` of a unit comes after the return of its
`fn` and, for a non-nil error, after its send (received, or failed on the
closed channel). -/
def DoneOrdered (tr : List Event) : Prop :=
  ∀ i pre post, tr = pre ++ Event.done i :: post →
    ∃ r, Event.ret i r ∈ pre ∧
      ∀ e, r = some e → Event.send i e ∈ pre ∨ Event.sendClosed i e ∈ pre

/-! ## Reading the transition function as the relation -/


theorem closeGo_eq_processGo : closeGo = processGo := by
  funext r pc
  cases pc <;> rfl

theorem unitGo_eq (u : GoUnit) : unitGo u = processGo u.ret u.pc := by
  unfold unitGo
  rw [closeGo_eq_processGo]
  simp

theorem stepUnit_cases {s s' : Session} {i : Nat} (h : stepUnit s i = some s') :
    UnitStep s i s' := by
  unfold stepUnit at h
  cases hu : s.units[i]? with
  | none => simp [hu] at h
  | some u =>
    simp only [hu, unitGo_eq] at h
    cases hg : processGo u.ret u.pc with
    | none => simp [hg] at h
    | some p =>
      obtain ⟨op, pc'⟩ := p
      simp only [hg] at h
      cases hpc : u.pc with
      | running =>
        rw [hpc] at hg
        cases hr : u.ret with
        | none =>
          rw [hr] at hg
          simp only [processGo, Option.some.injEq, Prod.mk.injEq] at hg
          obtain ⟨rfl, rfl⟩ := hg
          simp only [Option.some.injEq] at h
          subst h
          exact UnitStep.retNil u hu hpc hr
        | some e =>
          rw [hr] at hg
          simp only [processGo, Option.some.injEq, Prod.mk.injEq] at hg
          obtain ⟨rfl, rfl⟩ := hg
          simp only [Option.some.injEq] at h
          subst h
          exact UnitStep.ret u hu hpc e hr
      | sending e =>
        rw [hpc] at hg
        simp only [processGo, Option.some.injEq, Prod.mk.injEq] at hg
        obtain ⟨rfl, rfl⟩ := hg
        simp only at h
        cases hc : s.group.errorsClosed with
        | true =>
          simp only [hc, if_true, Option.some.injEq] at h
          subst h
          have := UnitStep.panic u hu e hpc hc
          simpa [hc] using this
        | false =>
          by_cases hb : s.bridge = .receiving
          · simp [hc, hb] at h
            subst h
            have := UnitStep.send u hu e hpc hc hb
            simpa [hc, hb] using this
          · simp [hc, hb] at h
      | deferred =>
        rw [hpc] at hg
        simp only [processGo, Option.some.injEq, Prod.mk.injEq] at hg
        obtain ⟨rfl, rfl⟩ := hg
        simp only [Option.some.injEq] at h
        subst h
        exact UnitStep.done u hu hpc
      | finished => rw [hpc] at hg; simp [processGo] at hg
      | panicked => rw [hpc] at hg; simp [processGo] at hg

theorem step?_cases {s s' : Session} {l : Label} (h : step? s l = some s') :
    s.crashed = false ∧ Step s l s' := by
  unfold step? at h
  by_cases hcr : s.crashed = true
  · rw [if_pos hcr] at h; cases h
  · rw [if_neg hcr] at h
    refine ⟨by simpa using hcr, ?_⟩
    cases l with
    | process r => cases h; exact Step.process r
    | close r => cases h; exact Step.close r
    | unit i => exact Step.unit i s' (stepUnit_cases h)
    | bridge =>
      simp only [stepBridge] at h
      split at h
      · rename_i hb
        split at h
        · rename_i hc; cases h; exact Step.bridgeExit hb hc
        · cases h
      · rename_i e hb; cases h; exact Step.bridgeHook e hb
      · rename_i hb; cases h; exact Step.bridgeCancel hb
      · cases h
    | parentCancel => cases h; exact Step.parentCancel
    | osSignal =>
      simp only [stepSignal] at h
      split at h
      · rename_i hg; cases h; exact Step.osSignal hg.1 hg.2
      · cases h
    | listener =>
      simp only [stepListener] at h
      split at h
      · rename_i hg; cases h; exact Step.listener hg.1 hg.2
      · cases h
    | observer =>
      simp only [stepObserver] at h
      split at h
      · rename_i hg; cases h; exact Step.observer hg.1 hg.2
      · cases h
    | wait t =>
      simp only [Wait] at h
      split at h
      · rename_i hg; cases h; exact Step.wait t hg
      · cases h
    | waiter =>
      simp only [stepWaiter] at h
      split at h
      · rename_i hw
        split at h
        · rename_i h0; cases h; exact Step.waiterWake hw h0
        · cases h
      · rename_i hw; cases h; exact Step.waiterClose hw
      · cases h
    | selectDone =>
      simp only [waitSelectDone] at h
      split at h
      · rename_i hg; cases h; exact Step.selectDone hg.1 hg.2
      · cases h
    | selectTimeout =>
      simp only [waitSelectTimeout] at h
      split at h
      · rename_i hg; cases h; exact Step.selectTimeout hg.1 hg.2
      · cases h
    | closeErrors =>
      simp only [waitClose] at h
      split at h
      · rename_i hg; cases h; exact Step.closeErrors hg
      · cases h
    | tick => cases h; exact Step.tick

theorem step_eq_or_step (s : Session) (l : Label) :
    step s l = s ∨ (s.crashed = false ∧ Step s l (step s l)) := by
  unfold step
  cases h : step? s l with
  | none => left; rfl
  | some t => right; simpa using step?_cases h

/-- A property kept by every transition holds along every schedule. -/
theorem exec_invariant (P : Session → Prop)
    (hP : ∀ s l t, P s → s.crashed = false → Step s l t → P t) :
    ∀ (ls : List Label) (s : Session), P s → P (exec s ls) := by
  intro ls
  induction ls with
  | nil => intro s h; exact h
  | cons l ls ih =>
    intro s h
    have : exec s (l :: ls) = exec (step s l) ls := rfl
    rw [this]
    apply ih
    rcases step_eq_or_step s l with he | ⟨hc, hs⟩
    · rw [he]; exact h
    · exact hP s l _ h hc hs

theorem outstanding_append (us : List GoUnit) (u : GoUnit) :
    outstanding (us ++ [u]) = outstanding us + (if completed u then 0 else 1) := by
  unfold outstanding
  rw [List.filter_append, List.length_append]
  cases h : completed u <;> simp [List.filter, h]

theorem outstanding_set (us : List GoUnit) (i : Nat) (u v : GoUnit)
    (h : us[i]? = some u) :
    outstanding (us.set i v) + (if completed u then 0 else 1)
      = outstanding us + (if completed v then 0 else 1) := by
  induction us generalizing i with
  | nil => simp at h
  | cons a t ih =>
    cases i with
    | zero =>
      simp only [List.getElem?_cons_zero, Option.some.injEq] at h
      subst h
      simp only [List.set_cons_zero, outstanding, List.filter_cons]
      cases completed a <;> cases completed v <;> simp
    | succ j =>
      simp only [List.getElem?_cons_succ] at h
      have := ih j h
      simp only [List.set_cons_succ, outstanding, List.filter_cons] at this ⊢
      cases completed a <;> simp <;> omega

theorem completedCount_add_outstanding (us : List GoUnit) :
    completedCount us + outstanding us = us.length := by
  induction us with
  | nil => rfl
  | cons a t ih =>
    simp only [completedCount, outstanding, List.filter_cons, List.length_cons] at ih ⊢
    cases completed a <;> simp <;> omega

theorem outstanding_eq_zero_iff (us : List GoUnit) :
    outstanding us = 0 ↔ ∀ u ∈ us, completed u = true := by
  unfold outstanding
  rw [List.length_eq_zero, List.filter_eq_nil_iff]
  constructor
  · intro h u hu
    have := h u hu
    simpa using this
  · intro h u hu
    simp [h u hu]

/-- The counter is the number of outstanding units. -/
theorem counter_step {s t : Session} {l : Label}
    (h : s.group.wg = (outstanding s.units : Int)) (hs : Step s l t) :
    t.group.wg = (outstanding t.units : Int) := by
  cases hs with
  | process r => simp [Process, outstanding_append, completed, h]
  | close r => simp [Close, outstanding_append, completed, h]
  | unit i t hu =>
    cases hu with
    | ret u hu hpc e hr =>
      have := outstanding_set s.units i u { u with pc := .sending e } hu
      simp [completed, hpc] at this
      simp [h, this]
    | retNil u hu hpc hr =>
      have := outstanding_set s.units i u { u with pc := .deferred } hu
      simp [completed, hpc] at this
      simp [h, this]
    | panic u hu e hpc hc =>
      have := outstanding_set s.units i u { u with pc := .panicked } hu
      simp [completed, hpc] at this
      simp [h]
      omega
    | send u hu e hpc hc hb =>
      have := outstanding_set s.units i u { u with pc := .deferred } hu
      simp [completed, hpc] at this
      simp [h, this]
    | done u hu hpc =>
      have := outstanding_set s.units i u { u with pc := .finished } hu
      simp [completed, hpc] at this
      simp [h]
      omega
  | _ => simpa [cancelShutdown, cancelSig, cancelParent] using h

theorem sendsOf_append (i : Nat) (a b : List Event) :
    sendsOf i (a ++ b) = sendsOf i a ++ sendsOf i b := by
  induction a with
  | nil => rfl
  | cons x t ih =>
    cases x <;> simp [sendsOf, ih]
    split <;> simp

theorem closedSendsOf_append (i : Nat) (a b : List Event) :
    closedSendsOf i (a ++ b) = closedSendsOf i a ++ closedSendsOf i b := by
  induction a with
  | nil => rfl
  | cons x t ih =>
    cases x <;> simp [closedSendsOf, ih]
    split <;> simp

/-- Events that do not concern unit `i` leave its facts as they are. -/
theorem unitFacts_extend {i : Nat} {tr : List Event} {u : GoUnit} (h : UnitFacts i tr u)
    (evs : List Event) (h1 : sendsOf i evs = []) (h2 : closedSendsOf i evs = [])
    (h3 : evs.count (.done i) = 0) : UnitFacts i (tr ++ evs) u where
  sending := h.sending
  panicked := h.panicked
  sends := by rw [sendsOf_append, h1, h.sends]; simp
  closed := by rw [closedSendsOf_append, h2, h.closed]; simp
  dones := by rw [List.count_append, h3, h.dones]; simp
  rets := fun hp => List.mem_append_left _ (h.rets hp)

theorem unitsInv_extend {s t : Session} (h : UnitsInv s) (evs : List Event)
    (hu : t.units = s.units) (ht : t.trace = s.trace ++ evs)
    (h1 : ∀ i, sendsOf i evs = []) (h2 : ∀ i, closedSendsOf i evs = [])
    (h3 : ∀ i, evs.count (.done i) = 0) (h4 : evs.count .add = 0) : UnitsInv t where
  present := by
    intro i u hi
    rw [hu] at hi
    rw [ht]
    exact unitFacts_extend (h.present i u hi) evs (h1 i) (h2 i) (h3 i)
  absent := by
    intro i hi
    rw [hu] at hi
    obtain ⟨a, b, c⟩ := h.absent i hi
    rw [ht, sendsOf_append, closedSendsOf_append, List.count_append, a, b, c, h1, h2, h3]
    simp
  adds := by rw [ht, hu, List.count_append, h4, h.adds]; simp

theorem unitsInv_register {s : Session} (h : UnitsInv s) (v : Bool) (r : Option Err) :
    UnitsInv { s with group := { s.group with wg := s.group.wg + 1 }
                      units := s.units ++ [{ viaClose := v, ret := r, pc := .running }]
                      trace := s.trace ++ [.add] } where
  present := by
    intro i u hi
    simp only at hi ⊢
    by_cases hlt : i < s.units.length
    · rw [List.getElem?_append_left hlt] at hi
      exact unitFacts_extend (h.present i u hi) [.add] rfl rfl (by simp) 
    · have hge : s.units.length ≤ i := Nat.le_of_not_lt hlt
      rw [List.getElem?_append_right hge] at hi
      obtain ⟨a, b, c⟩ := h.absent i hge
      have hi0 : i - s.units.length = 0 := by
        by_contra hne
        have : ([{ viaClose := v, ret := r, pc := UnitPc.running }] : List GoUnit)[i - s.units.length]? = none := by
          apply List.getElem?_eq_none
          simp; omega
        rw [this] at hi; cases hi
      rw [hi0] at hi
      simp only [List.getElem?_cons_zero, Option.some.injEq] at hi
      subst hi
      constructor
      · intro e he; simp at he
      · intro he; simp at he
      · rw [sendsOf_append, a]; simp [sendsOf]
      · rw [closedSendsOf_append, b]; simp [closedSendsOf]
      · rw [List.count_append, c]; simp [completed]
      · intro he; simp at he
  absent := by
    intro i hi
    simp only [List.length_append, List.length_singleton] at hi ⊢
    obtain ⟨a, b, c⟩ := h.absent i (by omega)
    rw [sendsOf_append, closedSendsOf_append, List.count_append, a, b, c]
    simp [sendsOf, closedSendsOf]
  adds := by simp [List.count_append, h.adds]

theorem unitsInv_update {s t : Session} (h : UnitsInv s) (i0 : Nat) (u v : GoUnit)
    (hu : s.units[i0]? = some u) (evs : List Event)
    (hv : UnitFacts i0 (s.trace ++ evs) v)
    (h1 : ∀ i, i ≠ i0 → sendsOf i evs = [])
    (h2 : ∀ i, i ≠ i0 → closedSendsOf i evs = [])
    (h3 : ∀ i, i ≠ i0 → evs.count (.done i) = 0)
    (h4 : evs.count .add = 0)
    (htu : t.units = s.units.set i0 v) (htt : t.trace = s.trace ++ evs) : UnitsInv t where
  present := by
    intro i w hi
    rw [htu] at hi
    rw [htt]
    have hlt : i0 < s.units.length := by
      by_contra hn
      rw [List.getElem?_eq_none (Nat.le_of_not_lt hn)] at hu
      cases hu
    by_cases hii : i = i0
    · subst hii
      rw [List.getElem?_set_self hlt] at hi
      cases hi
      exact hv
    · rw [List.getElem?_set_ne (Ne.symm hii)] at hi
      exact unitFacts_extend (h.present i w hi) evs (h1 i hii) (h2 i hii) (h3 i hii)
  absent := by
    intro i hi
    rw [htu, List.length_set] at hi
    have hlt : i0 < s.units.length := by
      by_contra hn
      rw [List.getElem?_eq_none (Nat.le_of_not_lt hn)] at hu
      cases hu
    have hii : i ≠ i0 := by omega
    obtain ⟨a, b, c⟩ := h.absent i hi
    rw [htt, sendsOf_append, closedSendsOf_append, List.count_append, a, b, c,
      h1 i hii, h2 i hii, h3 i hii]
    simp
  adds := by rw [htt, htu, List.count_append, h4, h.adds, List.length_set]; simp

theorem unitsInv_step {s t : Session} {l : Label} (h : UnitsInv s) (hs : Step s l t) :
    UnitsInv t := by
  cases hs with
  | process r => exact unitsInv_register h false r
  | close r => exact unitsInv_register h true r
  | unit i t hu =>
    cases hu with
    | ret u hu hpc e hr =>
      have f := h.present i u hu
      refine unitsInv_update h i u _ hu [.ret i (some e)] ?_ ?_ ?_ ?_ ?_ rfl rfl
      · constructor
        · intro e' he; simp at he; subst he; exact hr
        · intro he; simp at he
        · rw [sendsOf_append, f.sends]; simp [sendsOf, hpc]
        · rw [closedSendsOf_append, f.closed]; simp [closedSendsOf, hpc]
        · rw [List.count_append, f.dones]; simp [completed, hpc]
        · intro _; simp [hr]
      · intro j _; rfl
      · intro j _; rfl
      · intro j _; simp
      · simp
    | retNil u hu hpc hr =>
      have f := h.present i u hu
      refine unitsInv_update h i u _ hu [.ret i none] ?_ ?_ ?_ ?_ ?_ rfl rfl
      · constructor
        · intro e' he; simp at he
        · intro he; simp at he
        · rw [sendsOf_append, f.sends]; simp [sendsOf, hpc, hr]
        · rw [closedSendsOf_append, f.closed]; simp [closedSendsOf, hpc]
        · rw [List.count_append, f.dones]; simp [completed, hpc]
        · intro _; simp [hr]
      · intro j _; rfl
      · intro j _; rfl
      · intro j _; simp
      · simp
    | panic u hu e hpc hc =>
      have f := h.present i u hu
      have hr := f.sending e hpc
      refine unitsInv_update h i u _ hu [.sendClosed i e, .done i] ?_ ?_ ?_ ?_ ?_ rfl rfl
      · constructor
        · intro e' he; simp at he
        · intro _; simp [hr]
        · rw [sendsOf_append, f.sends]; simp [sendsOf, hpc]
        · rw [closedSendsOf_append, f.closed]; simp [closedSendsOf, hpc, hr]
        · rw [List.count_append, f.dones]; simp [completed, hpc]
        · intro _
          exact List.mem_append_left _ (f.rets (by simp [hpc]))
      · intro j _; rfl
      · intro j hj; simp [closedSendsOf, Ne.symm hj]
      · intro j hj; simp [List.count_cons, Ne.symm hj]
      · simp [List.count_cons]
    | send u hu e hpc hc hb =>
      have f := h.present i u hu
      have hr := f.sending e hpc
      refine unitsInv_update h i u _ hu [.send i e] ?_ ?_ ?_ ?_ ?_ rfl rfl
      · constructor
        · intro e' he; simp at he
        · intro he; simp at he
        · rw [sendsOf_append, f.sends]; simp [sendsOf, hpc, hr]
        · rw [closedSendsOf_append, f.closed]; simp [closedSendsOf, hpc]
        · rw [List.count_append, f.dones]; simp [completed, hpc]
        · intro _
          exact List.mem_append_left _ (f.rets (by simp [hpc]))
      · intro j hj; simp [sendsOf, Ne.symm hj]
      · intro j _; rfl
      · intro j _; simp
      · simp
    | done u hu hpc =>
      have f := h.present i u hu
      refine unitsInv_update h i u _ hu [.done i] ?_ ?_ ?_ ?_ ?_ rfl rfl
      · constructor
        · intro e' he; simp at he
        · intro he; simp at he
        · rw [sendsOf_append, f.sends]; simp [sendsOf, hpc]
        · rw [closedSendsOf_append, f.closed]; simp [closedSendsOf, hpc]
        · rw [List.count_append, f.dones]; simp [completed, hpc]
        · intro _
          exact List.mem_append_left _ (f.rets (by simp [hpc]))
      · intro j _; rfl
      · intro j _; rfl
      · intro j hj; simp [List.count_cons, Ne.symm hj]
      · simp [List.count_cons]
  | bridgeExit hb hc => exact unitsInv_extend h [] rfl (by simp) (fun _ => rfl) (fun _ => rfl) (fun _ => rfl) rfl
  | bridgeHook e hb => exact unitsInv_extend h [.hook e] rfl rfl (fun _ => rfl) (fun _ => rfl) (fun _ => by simp) (by simp)
  | bridgeCancel hb => exact unitsInv_extend h [.cancel] rfl rfl (fun _ => rfl) (fun _ => rfl) (fun _ => by simp) (by simp)
  | parentCancel => exact unitsInv_extend h [.parentCancel] rfl rfl (fun _ => rfl) (fun _ => rfl) (fun _ => by simp) (by simp)
  | osSignal hs hl => exact unitsInv_extend h [.signal] rfl rfl (fun _ => rfl) (fun _ => rfl) (fun _ => by simp) (by simp)
  | listener hl hd => exact unitsInv_extend h [] rfl (by simp) (fun _ => rfl) (fun _ => rfl) (fun _ => rfl) rfl
  | observer ho hd => exact unitsInv_extend h [.stop] rfl rfl (fun _ => rfl) (fun _ => rfl) (fun _ => by simp) (by simp)
  | wait t hw => exact unitsInv_extend h [.waitCall t] rfl rfl (fun _ => rfl) (fun _ => rfl) (fun _ => by simp) (by simp)
  | waiterWake hw h0 => exact unitsInv_extend h [] rfl (by simp) (fun _ => rfl) (fun _ => rfl) (fun _ => rfl) rfl
  | waiterClose hw => exact unitsInv_extend h [.closeDone] rfl rfl (fun _ => rfl) (fun _ => rfl) (fun _ => by simp) (by simp)
  | selectDone hw hd => exact unitsInv_extend h [.logAllClosed] rfl rfl (fun _ => rfl) (fun _ => rfl) (fun _ => by simp) (by simp)
  | selectTimeout hw hd => exact unitsInv_extend h [.logTimeout] rfl rfl (fun _ => rfl) (fun _ => rfl) (fun _ => by simp) (by simp)
  | closeErrors hw => exact unitsInv_extend h [.closeErrors] rfl rfl (fun _ => rfl) (fun _ => rfl) (fun _ => by simp) (by simp)
  | tick => exact unitsInv_extend h [] rfl (by simp) (fun _ => rfl) (fun _ => rfl) (fun _ => rfl) rfl

theorem ctxInv_step {s t : Session} {l : Label} (h : CtxInv s) (hs : Step s l t) :
    CtxInv t := by
  obtain ⟨h1, h2, h3, h4, h5, h6⟩ := h
  cases hs with
  | unit i t hu =>
    cases hu <;> constructor <;> simp_all
  | _ =>
    constructor <;>
      simp_all [Process, Close, cancelShutdown, cancelSig, cancelParent]

theorem bridgeView_append (a b : List Event) :
    bridgeView (a ++ b) = bridgeView a ++ bridgeView b := by
  induction a with
  | nil => rfl
  | cons x t ih => cases x <;> simp [bridgeView, ih]

theorem received_append (a b : List Event) :
    received (a ++ b) = received a ++ received b := by
  induction a with
  | nil => rfl
  | cons x t ih => cases x <;> simp [received, ih]

theorem hookCalls_append (a b : List Event) :
    hookCalls (a ++ b) = hookCalls a ++ hookCalls b := by
  induction a with
  | nil => rfl
  | cons x t ih => cases x <;> simp [hookCalls, ih]

theorem waitView_append (a b : List Event) :
    waitView (a ++ b) = waitView a ++ waitView b := by
  induction a with
  | nil => rfl
  | cons x t ih => cases x <;> simp [waitView, ih]

theorem bridgeInv_step {s t : Session} {l : Label} (h : BridgeInv s) (hs : Step s l t) :
    BridgeInv t := by
  obtain ⟨h1, h2, h3⟩ := h
  cases hs with
  | unit i t hu =>
    cases hu with
    | send u hu e hpc hc hb =>
      constructor
      · simp only [bridgeView_append, received_append, List.flatMap_append, ← h1, hb]
        simp [bridgeView, received, bridgePending]
      · simp only [hookCalls_append, received_append, ← h2, hb]
        simp [hookCalls, received]
      · intro hx; simp at hx
    | _ =>
      constructor <;>
        simp_all [bridgeView_append, received_append, hookCalls_append, bridgeView,
          received, hookCalls]
  | bridgeHook e hb =>
    constructor
    · rw [hb] at h1
      simpa [bridgeView_append, received_append, bridgeView, received, bridgePending]
        using h1
    · rw [hb] at h2
      simpa [hookCalls_append, received_append, hookCalls, received] using h2
    · intro hx; simp at hx
  | bridgeCancel hb =>
    constructor
    · rw [hb] at h1
      simpa [bridgeView_append, received_append, bridgeView, received, bridgePending,
        cancelShutdown] using h1
    · rw [hb] at h2
      simpa [hookCalls_append, received_append, hookCalls, received, cancelShutdown]
        using h2
    · intro hx; simp at hx
  | bridgeExit hb hc =>
    constructor
    · simpa [bridgePending, hb] using h1
    · simpa [hb] using h2
    · intro _; exact hc
  | closeErrors hw =>
    constructor
    · simpa [bridgeView_append, received_append, bridgeView, received] using h1
    · simpa [hookCalls_append, received_append, hookCalls, received] using h2
    · intro _; rfl
  | _ =>
    constructor <;>
      simp_all [Process, Close, cancelShutdown, cancelSig, cancelParent,
        bridgeView_append, received_append, hookCalls_append, bridgeView, received, hookCalls]

theorem mem_waitView_logAllClosed (tr : List Event) :
    Event.logAllClosed ∈ waitView tr ↔ Event.logAllClosed ∈ tr := by
  induction tr with
  | nil => simp [waitView]
  | cons x t ih => cases x <;> simp [waitView, ih]

theorem wait_view_step {s t : Session} {l : Label}
    (h1 : s.wait = .idle → waitView s.trace = [])
    (h2 : s.wait = .selecting → ∃ t, waitView s.trace = [.waitCall t])
    (h3 : s.wait = .closing → ∃ t b, (b = Event.logAllClosed ∨ b = Event.logTimeout) ∧
      waitView s.trace = [.waitCall t, b])
    (h4 : s.wait = .returned → ∃ t b, (b = Event.logAllClosed ∨ b = Event.logTimeout) ∧
      waitView s.trace = [.waitCall t, b, .closeErrors])
    (hs : Step s l t) :
    (t.wait = .idle → waitView t.trace = []) ∧
    (t.wait = .selecting → ∃ x, waitView t.trace = [.waitCall x]) ∧
    (t.wait = .closing → ∃ x b, (b = Event.logAllClosed ∨ b = Event.logTimeout) ∧
      waitView t.trace = [.waitCall x, b]) ∧
    (t.wait = .returned → ∃ x b, (b = Event.logAllClosed ∨ b = Event.logTimeout) ∧
      waitView t.trace = [.waitCall x, b, .closeErrors]) := by
  have H := And.intro h1 (And.intro h2 (And.intro h3 h4))
  cases hs with
  | unit i t hu =>
    cases hu <;> simpa [waitView_append, waitView] using H
  | wait x hw =>
    simp [waitView_append, waitView, h1 hw]
  | selectDone hw hd =>
    obtain ⟨x, hx⟩ := h2 hw
    simp [waitView_append, waitView, hx]
  | selectTimeout hw hd =>
    obtain ⟨x, hx⟩ := h2 hw
    simp [waitView_append, waitView, hx]
  | closeErrors hw =>
    obtain ⟨x, b, hb, hx⟩ := h3 hw
    refine ⟨?_, ?_, ?_, ?_⟩
    · intro hc; cases hc
    · intro hc; cases hc
    · intro hc; cases hc
    · intro _
      exact ⟨x, b, hb, by simp [waitView_append, waitView, hx]⟩
  | _ =>
    simpa [Process, Close, cancelShutdown, cancelSig, cancelParent, waitView_append,
      waitView] using H

theorem wait_closed_step {s t : Session} {l : Label}
    (h5 : s.group.errorsClosed = true ↔ s.wait = .returned) (hs : Step s l t) :
    (t.group.errorsClosed = true ↔ t.wait = .returned) := by
  cases hs with
  | unit i t hu => cases hu <;> simpa using h5
  | wait x hw => simp_all
  | selectDone hw hd => simp_all
  | selectTimeout hw hd => simp_all
  | closeErrors hw => simp
  | _ => simpa [Process, Close, cancelShutdown, cancelSig, cancelParent] using h5

theorem wait_crashed_step {s t : Session} {l : Label}
    (h6 : s.crashed = true → s.group.errorsClosed = true) (hs : Step s l t) :
    (t.crashed = true → t.group.errorsClosed = true) := by
  cases hs with
  | unit i t hu =>
    cases hu with
    | panic u hu e hpc hc => intro _; exact hc
    | _ => simpa using h6
  | closeErrors hw => simp
  | _ => simpa [Process, Close, cancelShutdown, cancelSig, cancelParent] using h6

theorem wait_waiter_step {s t : Session} {l : Label}
    (h7 : s.wait = .idle → s.waiter = .absent)
    (h8 : s.doneClosed = true → s.waiter = .exited) (hs : Step s l t) :
    (t.wait = .idle → t.waiter = .absent) ∧ (t.doneClosed = true → t.waiter = .exited) := by
  cases hs with
  | unit i t hu => cases hu <;> exact ⟨h7, h8⟩
  | wait x hw => simp
  | waiterWake hw h0 => simp_all
  | waiterClose hw => simp_all
  | selectDone hw hd => simp_all
  | selectTimeout hw hd => simp_all
  | closeErrors hw => simp_all
  | _ => exact ⟨h7, h8⟩

theorem wait_allClosed_step {s t : Session} {l : Label}
    (h1 : s.wait = .idle → waitView s.trace = [])
    (h9 : Event.logAllClosed ∈ s.trace → s.doneClosed = true) (hs : Step s l t) :
    (Event.logAllClosed ∈ t.trace → t.doneClosed = true) := by
  cases hs with
  | unit i t hu => cases hu <;> simpa using h9
  | wait x hw =>
    have : Event.logAllClosed ∉ s.trace := by
      rw [← mem_waitView_logAllClosed, h1 hw]; simp
    simp [this]
  | waiterClose hw => simp
  | selectDone hw hd => intro _; exact hd
  | _ => simpa [Process, Close, cancelShutdown, cancelSig, cancelParent] using h9

theorem wait_panicked_step {s t : Session} {l : Label}
    (h10 : ∀ u ∈ s.units, u.pc = .panicked → s.crashed = true)
    (h11 : ∀ i e, Event.sendClosed i e ∈ s.trace → s.crashed = true) (hs : Step s l t) :
    (∀ u ∈ t.units, u.pc = .panicked → t.crashed = true) ∧
    (∀ i e, Event.sendClosed i e ∈ t.trace → t.crashed = true) := by
  cases hs with
  | unit i t hu =>
    cases hu with
    | panic u hu e hpc hc => simp
    | _ =>
      refine ⟨?_, ?_⟩
      · intro w hw hp
        rcases List.mem_or_eq_of_mem_set hw with hm | rfl
        · exact h10 w hm hp
        · simp at hp
      · intro j e' hm
        simp at hm
        exact h11 j e' hm
  | process r =>
    refine ⟨?_, ?_⟩
    · intro w hw hp
      simp only [Process, List.mem_append, List.mem_singleton] at hw
      rcases hw with hm | rfl
      · exact h10 w hm hp
      · simp at hp
    · intro j e' hm
      simp [Process] at hm
      exact h11 j e' hm
  | close r =>
    refine ⟨?_, ?_⟩
    · intro w hw hp
      simp only [Close, List.mem_append, List.mem_singleton] at hw
      rcases hw with hm | rfl
      · exact h10 w hm hp
      · simp at hp
    · intro j e' hm
      simp [Close] at hm
      exact h11 j e' hm
  | _ => simpa [cancelShutdown, cancelSig, cancelParent] using And.intro h10 h11

theorem waitInv_step {s t : Session} {l : Label} (h : WaitInv s) (hs : Step s l t) :
    WaitInv t := by
  obtain ⟨h1, h2, h3, h4, h5, h6, h7, h8, h9, h10, h11⟩ := h
  obtain ⟨a1, a2, a3, a4⟩ := wait_view_step h1 h2 h3 h4 hs
  obtain ⟨b1, b2⟩ := wait_waiter_step h7 h8 hs
  obtain ⟨c1, c2⟩ := wait_panicked_step h10 h11 hs
  exact ⟨a1, a2, a3, a4, wait_closed_step h5 hs, wait_crashed_step h6 hs, b1, b2,
    wait_allClosed_step h1 h9 hs, c1, c2⟩

theorem inv_prepare (ctx : Bool) : SessionInv (Prepare ctx) where
  counter := by simp [Prepare, outstanding]
  units := by
    constructor
    · intro i u h; simp [Prepare] at h
    · intro i _; simp [Prepare, sendsOf, closedSendsOf]
    · simp [Prepare]
  ctx := by constructor <;> simp [Prepare]
  bridge := by constructor <;> simp [Prepare, bridgeView, received, bridgePending, hookCalls]
  wait := by constructor <;> simp [Prepare, waitView]

theorem inv_step {s t : Session} {l : Label} (h : SessionInv s) (hs : Step s l t) : SessionInv t where
  counter := counter_step h.counter hs
  units := unitsInv_step h.units hs
  ctx := ctxInv_step h.ctx hs
  bridge := bridgeInv_step h.bridge hs
  wait := waitInv_step h.wait hs

theorem inv_exec (ctx : Bool) (ls : List Label) : SessionInv (exec (Prepare ctx) ls) :=
  exec_invariant SessionInv (fun _ _ _ h _ hs => inv_step h hs) ls _ (inv_prepare ctx)

theorem step_of_some {s t : Session} {l : Label} (h : step? s l = some t) : step s l = t := by
  simp [step, h]

theorem stepUnit_running_nil {s : Session} {i : Nat} {u : GoUnit}
    (hu : s.units[i]? = some u) (hpc : u.pc = .running) (hr : u.ret = none) :
    stepUnit s i = some { s with units := s.units.set i { u with pc := .deferred }
                                 trace := s.trace ++ [.ret i none] } := by
  unfold stepUnit
  simp only [hu, unitGo_eq, hpc, hr, processGo]

theorem stepUnit_running_err {s : Session} {i : Nat} {u : GoUnit} {e : Err}
    (hu : s.units[i]? = some u) (hpc : u.pc = .running) (hr : u.ret = some e) :
    stepUnit s i = some { s with units := s.units.set i { u with pc := .sending e }
                                 trace := s.trace ++ [.ret i (some e)] } := by
  unfold stepUnit
  simp only [hu, unitGo_eq, hpc, hr, processGo]

theorem stepUnit_sending_open {s : Session} {i : Nat} {u : GoUnit} {e : Err}
    (hu : s.units[i]? = some u) (hpc : u.pc = .sending e)
    (hc : s.group.errorsClosed = false) (hb : s.bridge = .receiving) :
    stepUnit s i = some { s with units := s.units.set i { u with pc := .deferred }
                                 bridge := .calling e
                                 trace := s.trace ++ [.send i e] } := by
  unfold stepUnit
  simp [hu, unitGo_eq, hpc, processGo, hc, hb]

theorem stepUnit_sending_closed {s : Session} {i : Nat} {u : GoUnit} {e : Err}
    (hu : s.units[i]? = some u) (hpc : u.pc = .sending e)
    (hc : s.group.errorsClosed = true) :
    stepUnit s i = some { s with group := { s.group with wg := s.group.wg - 1 }
                                 units := s.units.set i { u with pc := .panicked }
                                 crashed := true
                                 trace := s.trace ++ [.sendClosed i e, .done i] } := by
  unfold stepUnit
  simp [hu, unitGo_eq, hpc, processGo, hc]

theorem stepUnit_deferred {s : Session} {i : Nat} {u : GoUnit}
    (hu : s.units[i]? = some u) (hpc : u.pc = .deferred) :
    stepUnit s i = some { s with group := { s.group with wg := s.group.wg - 1 }
                                 units := s.units.set i { u with pc := .finished }
                                 trace := s.trace ++ [.done i] } := by
  unfold stepUnit
  simp only [hu, unitGo_eq, hpc, processGo]

theorem step_unit_eq {s t : Session} {i : Nat} (hc : s.crashed = false)
    (h : stepUnit s i = some t) : step s (.unit i) = t := by
  apply step_of_some
  simp [step?, hc, h]

theorem getElem?_set_same {us : List GoUnit} {i : Nat} {u v : GoUnit}
    (hu : us[i]? = some u) : (us.set i v)[i]? = some v := by
  have hlt : i < us.length := by
    by_contra hn
    rw [List.getElem?_eq_none (Nat.le_of_not_lt hn)] at hu
    cases hu
  exact List.getElem?_set_self hlt

/-- The deferred `wg.Done()` of a unit whose `fn` has returned and whose send,
if any, is over: one step, the counter goes down by one, the unit is
completed. -/
theorem unit_done_run {s : Session} {i : Nat} {u : GoUnit} (hc : s.crashed = false)
    (hu : s.units[i]? = some u) (hpc : u.pc = .deferred) :
    (step s (.unit i)).group.wg = s.group.wg - 1 ∧
    (step s (.unit i)).units[i]? = some { u with pc := .finished } ∧
    (step s (.unit i)).trace = s.trace ++ [.done i] ∧
    (step s (.unit i)).crashed = false ∧
    (step s (.unit i)).bridge = s.bridge := by
  rw [step_unit_eq hc (stepUnit_deferred hu hpc)]
  exact ⟨rfl, getElem?_set_same hu, rfl, hc, rfl⟩

/-- A unit whose `fn` returns nil: return, then the deferred `wg.Done()`. -/
theorem unit_nil_run {s : Session} {i : Nat} {u : GoUnit} (hc : s.crashed = false)
    (hu : s.units[i]? = some u) (hpc : u.pc = .running) (hr : u.ret = none) :
    (exec s [.unit i, .unit i]).group.wg = s.group.wg - 1 ∧
    (exec s [.unit i, .unit i]).units[i]? = some { u with pc := .finished } ∧
    (exec s [.unit i, .unit i]).trace = s.trace ++ [.ret i none, .done i] := by
  have h1 := step_unit_eq hc (stepUnit_running_nil hu hpc hr)
  show (step (step s (.unit i)) (.unit i)).group.wg = _ ∧
    (step (step s (.unit i)) (.unit i)).units[i]? = _ ∧
    (step (step s (.unit i)) (.unit i)).trace = _
  rw [h1]
  obtain ⟨a, b, c, _, _⟩ := unit_done_run (s := { s with
      units := s.units.set i { u with pc := .deferred }
      trace := s.trace ++ [.ret i none] }) (i := i) (u := { u with pc := .deferred })
    hc (getElem?_set_same hu) rfl
  refine ⟨a, ?_, ?_⟩
  · rw [b]
  · rw [c]; simp

/-- A unit whose `fn` returns an error while the channel is open and the
bridge is at its receive: return, send, then the deferred `wg.Done()`. -/
theorem unit_err_run {s : Session} {i : Nat} {u : GoUnit} {e : Err}
    (hc : s.crashed = false) (hu : s.units[i]? = some u) (hpc : u.pc = .running)
    (hr : u.ret = some e) (ho : s.group.errorsClosed = false)
    (hb : s.bridge = .receiving) :
    (exec s [.unit i, .unit i, .unit i]).group.wg = s.group.wg - 1 ∧
    (exec s [.unit i, .unit i, .unit i]).units[i]? = some { u with pc := .finished } ∧
    (exec s [.unit i, .unit i, .unit i]).trace
      = s.trace ++ [.ret i (some e), .send i e, .done i] ∧
    (exec s [.unit i, .unit i, .unit i]).bridge = .calling e := by
  have h1 := step_unit_eq hc (stepUnit_running_err hu hpc hr)
  have h2 := step_unit_eq (s := { s with
      units := s.units.set i { u with pc := .sending e }
      trace := s.trace ++ [.ret i (some e)] }) (i := i) hc
    (stepUnit_sending_open (u := { u with pc := .sending e }) (getElem?_set_same hu) rfl ho hb)
  show (step (step (step s (.unit i)) (.unit i)) (.unit i)).group.wg = _ ∧
    (step (step (step s (.unit i)) (.unit i)) (.unit i)).units[i]? = _ ∧
    (step (step (step s (.unit i)) (.unit i)) (.unit i)).trace = _ ∧
    (step (step (step s (.unit i)) (.unit i)) (.unit i)).bridge = _
  rw [h1, h2]
  obtain ⟨a, b, c, _, d⟩ := unit_done_run
    (s := { s with
      units := (s.units.set i { u with pc := .sending e }).set i
        { u with pc := .deferred }
      bridge := .calling e
      trace := s.trace ++ [.ret i (some e)] ++ [.send i e] })
    (i := i) (u := { u with pc := .deferred }) hc
    (getElem?_set_same (getElem?_set_same hu)) rfl
  refine ⟨a, ?_, ?_, d⟩
  · rw [b]
  · rw [c]; simp

/-- C5: in every state reached from `Prepare` the completion counter equals
the number of registered units minus the number of completed ones, that is
the number of outstanding units; it is never negative; it is zero exactly
when every registered unit has completed; each registration is one `wg.Add(1)`
and raises the counter by one; and each unit has run `wg.Done()` once when it
has completed and not at all before, whatever `fn` returned.  Every unit does
decrement on completion, spawned by `Process` or by `Close`: once `fn` has
returned and the send, if any, is over, the unit's next step is `wg.Done()`,
which lowers the counter by exactly one and completes the unit; a unit whose
`fn` returns nil gets there in two steps; a unit whose `fn` returns an error
gets there in three steps when the bridge is at its receive on the open
channel; and a send that meets the closed channel still runs the deferred
`wg.Done()`. -/
theorem counter_counts_outstanding_units (ctx : Bool) (ls : List Label) :
    (exec (Prepare ctx) ls).group.wg
        = ((exec (Prepare ctx) ls).units.length : Int)
          - (completedCount (exec (Prepare ctx) ls).units : Int) ∧
    (exec (Prepare ctx) ls).group.wg = (outstanding (exec (Prepare ctx) ls).units : Int) ∧
    0 ≤ (exec (Prepare ctx) ls).group.wg ∧
    ((exec (Prepare ctx) ls).group.wg = 0
        ↔ ∀ u ∈ (exec (Prepare ctx) ls).units, completed u = true) ∧
    (exec (Prepare ctx) ls).trace.count .add = (exec (Prepare ctx) ls).units.length ∧
    (∀ (T : Type) (target : T) (fn : T → Option Err),
        (Process (exec (Prepare ctx) ls) target fn).group.wg
          = (exec (Prepare ctx) ls).group.wg + 1 ∧
        (Close (exec (Prepare ctx) ls) target fn).group.wg
          = (exec (Prepare ctx) ls).group.wg + 1) ∧
    (∀ i u, (exec (Prepare ctx) ls).units[i]? = some u →
        (exec (Prepare ctx) ls).trace.count (.done i) = if completed u then 1 else 0) ∧
    (∀ i u, (exec (Prepare ctx) ls).units[i]? = some u →
        (exec (Prepare ctx) ls).crashed = false → u.pc = .deferred →
        (step (exec (Prepare ctx) ls) (.unit i)).group.wg
          = (exec (Prepare ctx) ls).group.wg - 1 ∧
        (step (exec (Prepare ctx) ls) (.unit i)).units[i]? = some { u with pc := .finished } ∧
        (step (exec (Prepare ctx) ls) (.unit i)).trace
          = (exec (Prepare ctx) ls).trace ++ [.done i]) ∧
    (∀ i u, (exec (Prepare ctx) ls).units[i]? = some u →
        (exec (Prepare ctx) ls).crashed = false → u.pc = .running → u.ret = none →
        (exec (exec (Prepare ctx) ls) [.unit i, .unit i]).group.wg
          = (exec (Prepare ctx) ls).group.wg - 1 ∧
        (exec (exec (Prepare ctx) ls) [.unit i, .unit i]).units[i]?
          = some { u with pc := .finished } ∧
        (exec (exec (Prepare ctx) ls) [.unit i, .unit i]).trace
          = (exec (Prepare ctx) ls).trace ++ [.ret i none, .done i]) ∧
    (∀ i u e, (exec (Prepare ctx) ls).units[i]? = some u →
        (exec (Prepare ctx) ls).crashed = false → u.pc = .running → u.ret = some e →
        (exec (Prepare ctx) ls).group.errorsClosed = false →
        (exec (Prepare ctx) ls).bridge = .receiving →
        (exec (exec (Prepare ctx) ls) [.unit i, .unit i, .unit i]).group.wg
          = (exec (Prepare ctx) ls).group.wg - 1 ∧
        (exec (exec (Prepare ctx) ls) [.unit i, .unit i, .unit i]).units[i]?
          = some { u with pc := .finished } ∧
        (exec (exec (Prepare ctx) ls) [.unit i, .unit i, .unit i]).trace
          = (exec (Prepare ctx) ls).trace ++ [.ret i (some e), .send i e, .done i]) ∧
    (∀ i u e, (exec (Prepare ctx) ls).units[i]? = some u →
        (exec (Prepare ctx) ls).crashed = false → u.pc = .sending e →
        (exec (Prepare ctx) ls).group.errorsClosed = true →
        (step (exec (Prepare ctx) ls) (.unit i)).group.wg
          = (exec (Prepare ctx) ls).group.wg - 1 ∧
        (step (exec (Prepare ctx) ls) (.unit i)).units[i]?
          = some { u with pc := .panicked } ∧
        (step (exec (Prepare ctx) ls) (.unit i)).trace
          = (exec (Prepare ctx) ls).trace ++ [.sendClosed i e, .done i]) := by
  have h := inv_exec ctx ls
  generalize exec (Prepare ctx) ls = s at h
  have hc := h.counter
  have hsum := completedCount_add_outstanding s.units
  refine ⟨?_, hc, ?_, ?_, h.units.adds, ?_, ?_, ?_, ?_, ?_, ?_⟩
  · rw [hc]; omega
  · rw [hc]; omega
  · rw [hc, ← outstanding_eq_zero_iff]
    exact Int.natCast_eq_zero
  · intro T target fn
    exact ⟨rfl, rfl⟩
  · intro i u hu
    exact (h.units.present i u hu).dones
  · intro i u hu hcr hpc
    obtain ⟨a, b, c, _, _⟩ := unit_done_run hcr hu hpc
    exact ⟨a, b, c⟩
  · intro i u hu hcr hpc hr
    exact unit_nil_run hcr hu hpc hr
  · intro i u e hu hcr hpc hr ho hb
    obtain ⟨a, b, c, _⟩ := unit_err_run hcr hu hpc hr ho hb
    exact ⟨a, b, c⟩
  · intro i u e hu hcr hpc ho
    rw [step_unit_eq hcr (stepUnit_sending_closed hu hpc ho)]
    exact ⟨rfl, getElem?_set_same hu, rfl⟩

theorem cancel_mem_of_bridgeView (tr : List Event) :
    BridgeAct.cancel ∈ bridgeView tr → Event.cancel ∈ tr := by
  induction tr with
  | nil => simp [bridgeView]
  | cons x t ih =>
    cases x <;> simp [bridgeView] <;> exact ih

/-- C2: in every state reached from `Prepare`, the bridge's actions (receive,
hook call, cancel), in program order and completed by what it still has to do
for the error it holds, are exactly `receive e, hook e, cancel` for each
received error `e` in order of receipt: one hook call per received error, in
that order, each followed at once by the cancel and both before the next
receive.  Hence the hook calls are the received errors once the bridge is back
at its receive or has left the loop, and then, after a non-empty sequence of
received errors, the derived signal is cancelled. -/
theorem bridge_handles_each_error_in_order (ctx : Bool) (ls : List Label) :
    bridgeView (exec (Prepare ctx) ls).trace ++ bridgePending (exec (Prepare ctx) ls).bridge
        = (received (exec (Prepare ctx) ls).trace).flatMap
            (fun e => [BridgeAct.recv e, BridgeAct.hook e, BridgeAct.cancel]) ∧
    (bridgePending (exec (Prepare ctx) ls).bridge = [] →
        hookCalls (exec (Prepare ctx) ls).trace = received (exec (Prepare ctx) ls).trace) ∧
    (bridgePending (exec (Prepare ctx) ls).bridge = [] →
        received (exec (Prepare ctx) ls).trace ≠ [] →
        (exec (Prepare ctx) ls).shutdownDone = true) := by
  have h := inv_exec ctx ls
  generalize exec (Prepare ctx) ls = s at h
  refine ⟨h.bridge.view, ?_, ?_⟩
  · intro hp
    have := h.bridge.hooks
    cases hb : s.bridge <;> simp_all [bridgePending]
  · intro hp hne
    apply h.ctx.cancel
    apply cancel_mem_of_bridgeView
    have hv := h.bridge.view
    rw [hp, List.append_nil] at hv
    rw [hv]
    cases hr : received s.trace with
    | nil => exact absurd hr hne
    | cons e r => simp [List.flatMap_cons]

theorem handled_error_cancels {s : Session} (h : SessionInv s)
    (hp : bridgePending s.bridge = []) (hne : received s.trace ≠ []) :
    s.shutdownDone = true := by
  apply h.ctx.cancel
  apply cancel_mem_of_bridgeView
  have hv := h.bridge.view
  rw [hp, List.append_nil] at hv
  rw [hv]
  cases hr : received s.trace with
  | nil => exact absurd hr hne
  | cons e r => simp [List.flatMap_cons]

/-- The bridge holding a received error: the hook call, then `cancel()`. -/
theorem bridge_handle_run {s : Session} {e : Err} (hc : s.crashed = false)
    (hb : s.bridge = .calling e) :
    exec s [.bridge, .bridge]
      = { s with bridge := .receiving, shutdownDone := true
                 trace := s.trace ++ [.hook e, .cancel] } := by
  simp [exec, step, step?, stepBridge, cancelShutdown, hc, hb]

theorem signal_run {s : Session} (hc : s.crashed = false) (hs : s.subscribed = true)
    (hl : s.listener = .listening) :
    step s .osSignal
      = { s with sigDone := true, shutdownDone := true, listener := .exited
                 trace := s.trace ++ [.signal] } := by
  simp [step, step?, stepSignal, cancelSig, hc, hs, hl]

theorem parentCancel_run {s : Session} (hc : s.crashed = false) :
    step s .parentCancel = cancelParent s := by
  simp [step, step?, hc]

/-- C6: in every state reached from `Prepare ctx` the derived signal is
cancelled whenever the parent is cancelled (at the call or later), whenever
the listener has observed an OS signal, and whenever the bridge has completed
the handling of an error; when the parent is already cancelled at the call,
the signal returned by `Prepare` is cancelled at once and in every later
state.  Each trigger does cancel: as soon as some error has been received and
the bridge is not in the middle of handling one, the signal is cancelled; the
bridge holding a received error calls the hook and then cancels in its next
two steps; an OS signal reaching the subscribed listener cancels in that step;
and a cancellation of the parent cancels in that step. -/
theorem derived_signal_cancelled_by_each_trigger (ctx : Bool) (ls : List Label) :
    ((exec (Prepare ctx) ls).parentDone = true → (exec (Prepare ctx) ls).shutdownDone = true) ∧
    (Event.parentCancel ∈ (exec (Prepare ctx) ls).trace →
        (exec (Prepare ctx) ls).shutdownDone = true) ∧
    (Event.signal ∈ (exec (Prepare ctx) ls).trace →
        (exec (Prepare ctx) ls).shutdownDone = true) ∧
    (Event.cancel ∈ (exec (Prepare ctx) ls).trace →
        (exec (Prepare ctx) ls).shutdownDone = true) ∧
    (Prepare true).shutdownDone = true ∧
    (exec (Prepare true) ls).shutdownDone = true ∧
    (bridgePending (exec (Prepare ctx) ls).bridge = [] →
        received (exec (Prepare ctx) ls).trace ≠ [] →
        (exec (Prepare ctx) ls).shutdownDone = true) ∧
    (∀ e, (exec (Prepare ctx) ls).crashed = false →
        (exec (Prepare ctx) ls).bridge = .calling e →
        (exec (exec (Prepare ctx) ls) [.bridge, .bridge]).shutdownDone = true ∧
        (exec (exec (Prepare ctx) ls) [.bridge, .bridge]).bridge = .receiving ∧
        (exec (exec (Prepare ctx) ls) [.bridge, .bridge]).trace
          = (exec (Prepare ctx) ls).trace ++ [.hook e, .cancel]) ∧
    ((exec (Prepare ctx) ls).crashed = false →
        (exec (Prepare ctx) ls).subscribed = true →
        (exec (Prepare ctx) ls).listener = .listening →
        (step (exec (Prepare ctx) ls) .osSignal).shutdownDone = true ∧
        (step (exec (Prepare ctx) ls) .osSignal).trace
          = (exec (Prepare ctx) ls).trace ++ [.signal]) ∧
    ((exec (Prepare ctx) ls).crashed = false →
        (step (exec (Prepare ctx) ls) .parentCancel).shutdownDone = true ∧
        (step (exec (Prepare ctx) ls) .parentCancel).parentDone = true) := by
  have h := inv_exec ctx ls
  refine ⟨fun hp => h.ctx.sig (h.ctx.parent hp),
    fun hp => h.ctx.sig (h.ctx.parent (h.ctx.parentEv hp)),
    h.ctx.signal, h.ctx.cancel, rfl, ?_, handled_error_cancels h, ?_, ?_, ?_⟩
  · exact exec_invariant (fun s => s.shutdownDone = true)
      (fun s l t hd _ hs => by
        cases hs with
        | unit i t hu => cases hu <;> exact hd
        | _ => first | exact hd | rfl)
      ls _ rfl
  · intro e hc hb
    rw [bridge_handle_run hc hb]
    exact ⟨rfl, rfl, rfl⟩
  · intro hc hs hl
    rw [signal_run hc hs hl]
    exact ⟨rfl, rfl⟩
  · intro hc
    rw [parentCancel_run hc]
    exact ⟨rfl, rfl⟩

theorem shutdownDone_step {s t : Session} {l : Label} (hd : s.shutdownDone = true)
    (hs : Step s l t) : t.shutdownDone = true := by
  cases hs with
  | unit i t hu => cases hu <;> exact hd
  | _ => first | exact hd | rfl

theorem shutdownDone_exec (ls : List Label) (s : Session) (hd : s.shutdownDone = true) :
    (exec s ls).shutdownDone = true :=
  exec_invariant (fun s => s.shutdownDone = true) (fun _ _ _ h _ hs => shutdownDone_step h hs)
    ls s hd

/-- C7: from any state in which the derived signal is cancelled, it is
cancelled after every schedule (unit steps, bridge steps, OS signals, the
observer's `stop()`, the steps of `Wait`, clock ticks); a `cancel()` on the
cancelled signal leaves the state as it is, `cancel()` twice is `cancel()`
once, and a bridge step taken from such a state changes nothing but the
bridge's own position and the trace. -/
theorem cancelled_signal_stays_cancelled (s : Session) (ls : List Label)
    (hd : s.shutdownDone = true) :
    (exec s ls).shutdownDone = true ∧
    cancelShutdown s = s ∧
    cancelShutdown (cancelShutdown s) = cancelShutdown s ∧
    (step s .bridge).shutdownDone = true ∧
    (step s .bridge).sigDone = s.sigDone ∧
    (step s .bridge).parentDone = s.parentDone := by
  refine ⟨shutdownDone_exec ls s hd, ?_, rfl, ?_, ?_, ?_⟩
  · cases s
    simp only [cancelShutdown] at hd ⊢
    simp [hd]
  · exact shutdownDone_exec [.bridge] s hd
  · rcases step_eq_or_step s .bridge with he | ⟨_, hs⟩
    · rw [he]
    · generalize step s .bridge = t at hs
      cases hs <;> rfl
  · rcases step_eq_or_step s .bridge with he | ⟨_, hs⟩
    · rw [he]
    · generalize step s .bridge = t at hs
      cases hs <;> rfl

/-- Witness for C7: the signal cancelled by the first error stays cancelled
while a second error is handled, `stop()` runs and `Wait` closes the channel. -/
theorem cancelled_signal_stays_cancelled_witness :
    (exec (Prepare false) [.process (some 1), .unit 0, .unit 0, .bridge, .bridge]).shutdownDone
        = true ∧
    (exec (exec (Prepare false) [.process (some 1), .unit 0, .unit 0, .bridge, .bridge])
        [.process (some 2), .unit 1, .unit 1, .bridge, .bridge, .osSignal, .observer,
          .wait 0, .selectTimeout, .closeErrors]).shutdownDone = true :=
  ⟨by decide,
   (cancelled_signal_stays_cancelled
      (exec (Prepare false) [.process (some 1), .unit 0, .unit 0, .bridge, .bridge])
      [.process (some 2), .unit 1, .unit 1, .bridge, .bridge, .osSignal, .observer,
        .wait 0, .selectTimeout, .closeErrors] (by decide)).1⟩

/-- C4: for every unit registered with `Process` or `Close`, in every state
reached from `Prepare`: the goroutine body goes from the return of `fn` to the
send statement exactly when the returned error is non-nil, and the value it
then sends is that error; the unit has at most one send in the trace
(completed, or attempted on the closed channel); every value it sent or tried
to send is the error `fn(target)` returned; a unit whose `fn` returned nil has
no send; and a unit whose `fn` returned an error and that is past its send
statement has exactly that one send. -/
theorem unit_sends_iff_error (ctx : Bool) (ls : List Label) (i : Nat) (u : GoUnit)
    (hu : (exec (Prepare ctx) ls).units[i]? = some u) :
    (∀ r : Option Err,
        processGo r .running
          = some (.ret r, match r with | some e => .sending e | none => .deferred) ∧
        closeGo r .running
          = some (.ret r, match r with | some e => .sending e | none => .deferred)) ∧
    (∀ r e, processGo r (.sending e) = some (.send e, .deferred) ∧
        closeGo r (.sending e) = some (.send e, .deferred)) ∧
    (∀ e, u.pc = .sending e → u.ret = some e) ∧
    (sendsOf i (exec (Prepare ctx) ls).trace
        ++ closedSendsOf i (exec (Prepare ctx) ls).trace).length ≤ 1 ∧
    (∀ e ∈ sendsOf i (exec (Prepare ctx) ls).trace
        ++ closedSendsOf i (exec (Prepare ctx) ls).trace, u.ret = some e) ∧
    (u.ret = none →
        sendsOf i (exec (Prepare ctx) ls).trace = [] ∧
        closedSendsOf i (exec (Prepare ctx) ls).trace = []) ∧
    (∀ e, u.ret = some e → pastSend u = true →
        sendsOf i (exec (Prepare ctx) ls).trace
          ++ closedSendsOf i (exec (Prepare ctx) ls).trace = [e]) ∧
    (pastSend u = false →
        sendsOf i (exec (Prepare ctx) ls).trace = [] ∧
        closedSendsOf i (exec (Prepare ctx) ls).trace = []) := by
  have h := inv_exec ctx ls
  generalize exec (Prepare ctx) ls = s at h hu
  have f := h.units.present i u hu
  have hs := f.sends
  have hc := f.closed
  refine ⟨?_, ?_, f.sending, ?_, ?_, ?_, ?_, ?_⟩
  · intro r; cases r <;> exact ⟨rfl, rfl⟩
  · intro r e; exact ⟨rfl, rfl⟩
  · rw [hs, hc]
    cases hp : u.pc <;> cases hr : u.ret <;> simp
  · intro e he
    rw [hs, hc] at he
    cases hp : u.pc <;> cases hr : u.ret <;> simp_all
  · intro hr
    rw [hs, hc, hr]
    simp
  · intro e hr hp
    rw [hs, hc, hr]
    cases hpc : u.pc <;> simp_all [pastSend]
  · intro hp
    rw [hs, hc]
    cases hpc : u.pc <;> simp_all [pastSend]

/-- Witness for C4: three units, one returning nil, one returning an error the
bridge receives, one whose error meets the closed channel. -/
theorem unit_sends_iff_error_witness :
    (exec (Prepare false)
        [.process none, .close (some 4), .process (some 9), .unit 0, .unit 1, .unit 1,
          .unit 2, .wait 0, .selectTimeout, .closeErrors, .unit 2]).units[1]?
      = some { viaClose := true, ret := some 4, pc := .deferred } ∧
    sendsOf 1 (exec (Prepare false)
        [.process none, .close (some 4), .process (some 9), .unit 0, .unit 1, .unit 1,
          .unit 2, .wait 0, .selectTimeout, .closeErrors, .unit 2]).trace
      ++ closedSendsOf 1 (exec (Prepare false)
        [.process none, .close (some 4), .process (some 9), .unit 0, .unit 1, .unit 1,
          .unit 2, .wait 0, .selectTimeout, .closeErrors, .unit 2]).trace = [4] :=
  ⟨by decide,
   (unit_sends_iff_error false
      [.process none, .close (some 4), .process (some 9), .unit 0, .unit 1, .unit 1,
        .unit 2, .wait 0, .selectTimeout, .closeErrors, .unit 2] 1
      { viaClose := true, ret := some 4, pc := .deferred } (by decide)).2.2.2.2.2.2.1
      4 rfl (by decide)⟩

theorem count_closeErrors_waitView (tr : List Event) :
    (waitView tr).count .closeErrors = tr.count .closeErrors := by
  induction tr with
  | nil => rfl
  | cons x t ih => cases x <;> simp [waitView, List.count_cons, ih]

theorem exec_append (s : Session) (a b : List Label) :
    exec s (a ++ b) = exec (exec s a) b := by
  simp [exec, List.foldl_append]

theorem exec_ticks (n : Nat) (s : Session) (hc : s.crashed = false) :
    exec s (List.replicate n .tick) = { s with now := s.now + n } := by
  induction n generalizing s with
  | zero => rfl
  | succ k ih =>
    have h1 : step s .tick = { s with now := s.now + 1 } := by
      simp [step, step?, hc]
    rw [List.replicate_succ]
    show exec (step s .tick) (List.replicate k .tick) = _
    rw [h1, ih]
    · simp only [Session.mk.injEq, true_and, and_true]
      omega
    · exact hc

/-- The timeout branch, run from a state where `Wait` has not been called. -/
theorem wait_timeout_run (s : Session) (t : Int) (hc : s.crashed = false)
    (hw : s.wait = .idle) :
    exec s (.wait t :: (List.replicate t.toNat .tick ++ [.selectTimeout, .closeErrors]))
      = { s with group := { s.group with errorsClosed := true }
                 wait := .returned, waiter := .blocked, doneClosed := false
                 now := s.now + t.toNat
                 deadline := (s.now : Int) + t
                 trace := s.trace ++ [.waitCall t, .logTimeout, .closeErrors] } := by
  have h1 : step s (.wait t) = { s with wait := .selecting, waiter := .blocked
                                        doneClosed := false
                                        deadline := (s.now : Int) + t
                                        trace := s.trace ++ [.waitCall t] } := by
    simp [step, step?, Wait, hc, hw]
  show exec (step s (.wait t)) _ = _
  have hle : (s.now : Int) + t ≤ ((s.now + t.toNat : Nat) : Int) := by
    have := Int.self_le_toNat t
    push_cast
    omega
  rw [h1, exec_append, exec_ticks]
  · simp [exec, step, step?, hc, waitSelectTimeout, waitClose, hle]
  · exact hc

/-- The all-closed branch, run from a state where `Wait` has not been called
and the counter is zero. -/
theorem wait_allClosed_run (s : Session) (t : Int) (hc : s.crashed = false)
    (hw : s.wait = .idle) (h0 : s.group.wg = 0) :
    exec s [.wait t, .waiter, .waiter, .selectDone, .closeErrors]
      = { s with group := { s.group with errorsClosed := true }
                 wait := .returned, waiter := .exited, doneClosed := true
                 deadline := (s.now : Int) + t
                 trace := s.trace ++ [.waitCall t, .closeDone, .logAllClosed, .closeErrors] } := by
  simp [exec, step, step?, Wait, stepWaiter, waitSelectDone, waitClose, hc, hw, h0]

end Graceful

namespace Graceful

theorem not_crashed_of_not_returned {s : Session} (h : SessionInv s) (hw : s.wait ≠ .returned) :
    s.crashed = false := by
  cases hc : s.crashed with
  | false => rfl
  | true => exact absurd (h.wait.closed.mp (h.wait.crashed hc)) hw

/-- From the `select`, the timeout branch can always be taken once the clock
has reached the deadline. -/
theorem wait_selecting_run (s : Session) (n : Nat) (hc : s.crashed = false)
    (hw : s.wait = .selecting) (hle : s.deadline ≤ (s.now : Int) + (n : Int)) :
    exec s (List.replicate n .tick ++ [.selectTimeout, .closeErrors])
      = { s with group := { s.group with errorsClosed := true }
                 wait := .returned
                 now := s.now + n
                 trace := s.trace ++ [.logTimeout, .closeErrors] } := by
  rw [exec_append, exec_ticks]
  · simp [exec, step, step?, hc, hw, waitSelectTimeout, waitClose, hle]
  · exact hc

theorem wait_closing_run (s : Session) (hc : s.crashed = false) (hw : s.wait = .closing) :
    exec s [.closeErrors]
      = { s with group := { s.group with errorsClosed := true }
                 wait := .returned
                 trace := s.trace ++ [.closeErrors] } := by
  simp [exec, step, step?, hc, hw, waitClose]

/-- C3: in every state reached from `Prepare`, the trace holds one
`close(g.errors)` when `Wait` has returned and none before; the channel is
closed exactly when `Wait` has returned; the actions of a returned `Wait` are
the call, one of the two log lines (all closed, or timeout) and the close, in
this order, the close being the last.  `Wait` does return: called with any
timeout `t` in any state where it has not been called, whatever the counter,
the timeout branch run ends with the close; with the counter at zero the
all-closed branch run ends with the close; and from inside the `select` or
just after it the call can still be brought to its close. -/
theorem wait_closes_errors_once_at_end (ctx : Bool) (ls : List Label) (t : Int) :
    ((exec (Prepare ctx) ls).trace.count .closeErrors
        = if (exec (Prepare ctx) ls).wait = .returned then 1 else 0) ∧
    ((exec (Prepare ctx) ls).group.errorsClosed = true
        ↔ (exec (Prepare ctx) ls).wait = .returned) ∧
    ((exec (Prepare ctx) ls).wait = .returned →
        ∃ x b, (b = Event.logAllClosed ∨ b = Event.logTimeout) ∧
          waitView (exec (Prepare ctx) ls).trace = [.waitCall x, b, .closeErrors]) ∧
    ((exec (Prepare ctx) ls).wait = .idle →
        (exec (exec (Prepare ctx) ls)
            (.wait t :: (List.replicate t.toNat .tick ++ [.selectTimeout, .closeErrors]))).wait
          = .returned ∧
        (exec (exec (Prepare ctx) ls)
            (.wait t :: (List.replicate t.toNat .tick ++ [.selectTimeout, .closeErrors]))).trace
          = (exec (Prepare ctx) ls).trace ++ [.waitCall t, .logTimeout, .closeErrors]) ∧
    ((exec (Prepare ctx) ls).wait = .idle → (exec (Prepare ctx) ls).group.wg = 0 →
        (exec (exec (Prepare ctx) ls)
            [.wait t, .waiter, .waiter, .selectDone, .closeErrors]).wait = .returned ∧
        (exec (exec (Prepare ctx) ls)
            [.wait t, .waiter, .waiter, .selectDone, .closeErrors]).trace
          = (exec (Prepare ctx) ls).trace
              ++ [.waitCall t, .closeDone, .logAllClosed, .closeErrors]) ∧
    ((exec (Prepare ctx) ls).wait = .selecting ∨ (exec (Prepare ctx) ls).wait = .closing →
        ∃ more, (exec (exec (Prepare ctx) ls) more).wait = .returned) := by
  have h := inv_exec ctx ls
  generalize exec (Prepare ctx) ls = s at h
  refine ⟨?_, h.wait.closed, h.wait.returned, ?_, ?_, ?_⟩
  · rw [← count_closeErrors_waitView]
    cases hw : s.wait with
    | idle => rw [h.wait.idle hw]; simp
    | selecting =>
      obtain ⟨x, hx⟩ := h.wait.selecting hw
      rw [hx]; simp [List.count_cons]
    | closing =>
      obtain ⟨x, b, hb, hx⟩ := h.wait.closing hw
      rw [hx]
      rcases hb with rfl | rfl <;> simp [List.count_cons]
    | returned =>
      obtain ⟨x, b, hb, hx⟩ := h.wait.returned hw
      rw [hx]
      rcases hb with rfl | rfl <;> simp [List.count_cons]
  · intro hw
    have hc := not_crashed_of_not_returned h (by rw [hw]; simp)
    rw [wait_timeout_run s t hc hw]
    exact ⟨rfl, rfl⟩
  · intro hw h0
    have hc := not_crashed_of_not_returned h (by rw [hw]; simp)
    rw [wait_allClosed_run s t hc hw h0]
    exact ⟨rfl, rfl⟩
  · intro hw
    rcases hw with hw | hw
    · have hc := not_crashed_of_not_returned h (by rw [hw]; simp)
      have hle : s.deadline ≤ (s.now : Int) + ((s.deadline - (s.now : Int)).toNat : Int) := by
        have := Int.self_le_toNat (s.deadline - (s.now : Int))
        omega
      exact ⟨_, by rw [wait_selecting_run s _ hc hw hle]⟩
    · have hc := not_crashed_of_not_returned h (by rw [hw]; simp)
      exact ⟨_, by rw [wait_closing_run s hc hw]⟩

theorem stepUnit_untag (s : Session) (i : Nat) :
    stepUnit (untag s) i = (stepUnit s i).map untag := by
  unfold stepUnit
  simp only [untag, List.getElem?_map]
  cases hu : s.units[i]? with
  | none => simp
  | some u =>
    simp only [Option.map_some', unitGo_eq]
    cases hg : processGo u.ret u.pc with
    | none => simp
    | some p =>
      obtain ⟨op, pc⟩ := p
      cases op with
      | ret r => simp [untag, List.map_set]
      | send e =>
        simp only
        split
        · simp [untag, List.map_set]
        · split
          · simp [untag, List.map_set]
          · simp
      | done => simp [untag, List.map_set]

theorem guard_untag {p q : Prop} [Decidable p] [Decidable q] (h : p ↔ q) (a b : Session)
    (hab : a = untag b) :
    (if p then some a else none) = (if q then some b else none).map untag := by
  by_cases hp : p
  · rw [if_pos hp, if_pos (h.mp hp), hab]; rfl
  · rw [if_neg hp, if_neg (fun hq => hp (h.mpr hq))]; rfl

theorem step?_untag (s : Session) (l : Label) :
    step? (untag s) l.asProcess = (step? s l).map untag := by
  unfold step?
  by_cases hc : s.crashed = true
  · have : (untag s).crashed = true := hc
    rw [if_pos hc, if_pos this]; rfl
  · have : ¬ (untag s).crashed = true := hc
    rw [if_neg hc, if_neg this]
    cases l with
    | unit i => exact stepUnit_untag s i
    | process r => simp [Label.asProcess, Process, untag]
    | close r => simp [Label.asProcess, Process, Close, untag]
    | bridge =>
      rcases s with ⟨g, us, b, pd, sd, shd, sub, li, ob, w, wt, dc, nw, dl, cr, tr⟩
      cases b
      · exact guard_untag Iff.rfl _ _ rfl
      · rfl
      · rfl
      · rfl
    | parentCancel => rfl
    | osSignal => exact guard_untag Iff.rfl _ _ rfl
    | listener => exact guard_untag Iff.rfl _ _ rfl
    | observer => exact guard_untag Iff.rfl _ _ rfl
    | wait t => exact guard_untag Iff.rfl _ _ rfl
    | waiter =>
      rcases s with ⟨g, us, b, pd, sd, shd, sub, li, ob, w, wt, dc, nw, dl, cr, tr⟩
      cases wt
      · rfl
      · exact guard_untag Iff.rfl _ _ rfl
      · rfl
      · rfl
    | selectDone => exact guard_untag Iff.rfl _ _ rfl
    | selectTimeout => exact guard_untag Iff.rfl _ _ rfl
    | closeErrors => exact guard_untag Iff.rfl _ _ rfl
    | tick => rfl

theorem step_untag (s : Session) (l : Label) :
    step (untag s) l.asProcess = untag (step s l) := by
  unfold step
  rw [step?_untag]
  cases step? s l <;> rfl

theorem exec_untag (ls : List Label) (s : Session) :
    exec (untag s) (ls.map Label.asProcess) = untag (exec s ls) := by
  induction ls generalizing s with
  | nil => rfl
  | cons l ls ih =>
    show exec (step (untag s) l.asProcess) (ls.map Label.asProcess) = untag (exec (step s l) ls)
    rw [step_untag, ih]

/-- C8: `Close(group, target, fn)` and `Process(group, target, fn)` have the
same effect.  The two goroutine bodies are the same statement for statement
(same conditional send, same deferred decrement); both calls raise the counter
by one, append the same trace, spawn a unit with the same result and position,
and leave every other field alone, so the two states differ only in the record
of which function was called; and that record never matters: after any
schedule the states reached from the two are again equal up to this record. -/
theorem close_same_effect_as_process {T : Type} (s : Session) (target : T)
    (fn : T → Option Err) (ls : List Label) :
    closeGo = processGo ∧
    (Close s target fn).group = (Process s target fn).group ∧
    (Close s target fn).group.wg = s.group.wg + 1 ∧
    (Close s target fn).trace = (Process s target fn).trace ∧
    untag (Close s target fn) = untag (Process s target fn) ∧
    untag (exec (Close s target fn) ls) = untag (exec (Process s target fn) ls) ∧
    untag (step s (.close (fn target))) = untag (step s (.process (fn target))) := by
  have h : untag (Close s target fn) = untag (Process s target fn) := by
    simp [Close, Process, untag]
  refine ⟨closeGo_eq_processGo, rfl, rfl, rfl, h, ?_, ?_⟩
  · rw [← exec_untag, ← exec_untag, h]
  · rw [← step_untag, ← step_untag]
    rfl

theorem step_counter_cases {s t : Session} {l : Label} (hs : Step s l t) :
    (l.isReg = true ∧ t.group.wg = s.group.wg + 1 ∧ t.units.length = s.units.length + 1) ∨
    (l.isReg = false ∧ (t.group.wg = s.group.wg ∨ t.group.wg = s.group.wg - 1) ∧
      t.units.length = s.units.length) := by
  cases hs with
  | process r => left; simp [Label.isReg, Process]
  | close r => left; simp [Label.isReg, Close]
  | unit i t hu => right; cases hu <;> simp [Label.isReg]
  | _ => right; simp [Label.isReg, cancelShutdown, cancelSig, cancelParent]

theorem wgHistory_eq_cons (s : Session) (ls : List Label) :
    wgHistory s ls = s.group.wg :: (wgHistory s ls).tail := by
  cases ls <;> rfl

/-- With units registered and the counter at zero, a schedule without further
registrations keeps the counter at zero. -/
theorem drops_zero_of_settled (ls : List Label) (s : Session)
    (hc : s.group.wg = (outstanding s.units : Int)) (h0 : s.group.wg = 0)
    (hne : s.units ≠ []) (hr : regsBeforeZero s ls = true) :
    drops (wgHistory s ls) = 0 := by
  induction ls generalizing s with
  | nil => rfl
  | cons l ls ih =>
    simp only [regsBeforeZero, Bool.and_eq_true, Bool.or_eq_true, Bool.not_eq_true',
      decide_eq_true_eq] at hr
    obtain ⟨hl, hrest⟩ := hr
    have hreg : l.isReg = false := by
      rcases hl with (hl | hl) | hl
      · exact hl
      · exact absurd h0 hl
      · exact absurd hl hne
    have key : (step s l).group.wg = (outstanding (step s l).units : Int) ∧
        (step s l).group.wg = 0 ∧ (step s l).units ≠ [] := by
      rcases step_eq_or_step s l with he | ⟨_, hs⟩
      · rw [he]; exact ⟨hc, h0, hne⟩
      · have hc' := counter_step hc hs
        rcases step_counter_cases hs with ⟨hreg', _⟩ | ⟨_, hwg, hlen⟩
        · rw [hreg] at hreg'; cases hreg'
        · refine ⟨hc', ?_, ?_⟩
          · rcases hwg with hwg | hwg
            · rw [hwg, h0]
            · have : (0 : Int) ≤ (step s l).group.wg := by rw [hc']; omega
              omega
          · intro hnil
            rw [hnil] at hlen
            exact hne (List.length_eq_zero.mp hlen.symm)
    show drops (s.group.wg :: wgHistory (step s l) ls) = 0
    rw [wgHistory_eq_cons (step s l) ls]
    have ih' := ih (step s l) key.1 key.2.1 key.2.2 hrest
    rw [wgHistory_eq_cons (step s l) ls] at ih'
    simp only [drops, ih', h0]
    simp

theorem drops_le_one (ls : List Label) (s : Session)
    (hc : s.group.wg = (outstanding s.units : Int)) (hr : regsBeforeZero s ls = true) :
    drops (wgHistory s ls) ≤ 1 := by
  induction ls generalizing s with
  | nil => simp [wgHistory, drops]
  | cons l ls ih =>
    simp only [regsBeforeZero, Bool.and_eq_true] at hr
    obtain ⟨_, hrest⟩ := hr
    have hc' : (step s l).group.wg = (outstanding (step s l).units : Int) := by
      rcases step_eq_or_step s l with he | ⟨_, hs⟩
      · rw [he]; exact hc
      · exact counter_step hc hs
    show drops (s.group.wg :: wgHistory (step s l) ls) ≤ 1
    have ih' := ih (step s l) hc' hrest
    rw [wgHistory_eq_cons (step s l) ls] at ih' ⊢
    simp only [drops]
    by_cases hd : 0 < s.group.wg ∧ (step s l).group.wg = 0
    · have hne : (step s l).units ≠ [] := by
        rcases step_eq_or_step s l with he | ⟨_, hs⟩
        · rw [he] at hd; omega
        · intro hnil
          have hpos : 0 < outstanding s.units := by
            have := hd.1; rw [hc] at this; omega
          have hlen : 0 < s.units.length := by
            have := completedCount_add_outstanding s.units
            omega
          rcases step_counter_cases hs with ⟨_, _, hl⟩ | ⟨_, _, hl⟩
          · rw [hnil] at hl; simp at hl
          · rw [hnil] at hl; simp at hl; omega
      have hz := drops_zero_of_settled ls (step s l) hc' hd.2 hne hrest
      rw [wgHistory_eq_cons (step s l) ls] at hz
      rw [if_pos hd, hz]
    · rw [if_neg hd]
      omega

/-- C9 as stated fails: a unit registered after the counter has come back to
zero brings it to zero a second time. -/
theorem counter_returns_to_zero_twice :
    wgHistory (Prepare false)
        [.process none, .unit 0, .unit 0, .process none, .unit 1, .unit 1]
      = [0, 1, 1, 0, 1, 1, 0] ∧
    drops (wgHistory (Prepare false)
        [.process none, .unit 0, .unit 0, .process none, .unit 1, .unit 1]) = 2 ∧
    ¬ drops (wgHistory (Prepare false)
        [.process none, .unit 0, .unit 0, .process none, .unit 1, .unit 1]) ≤ 1 := by
  decide

/-- C9 amended: in every session in which no unit is registered once the
counter has come back to zero, the counter goes from a positive value to zero
no more than once. -/
theorem counter_returns_to_zero_at_most_once (ctx : Bool) (ls : List Label)
    (hr : regsBeforeZero (Prepare ctx) ls = true) :
    drops (wgHistory (Prepare ctx) ls) ≤ 1 :=
  drops_le_one ls (Prepare ctx) (inv_prepare ctx).counter hr

/-- Witness for C9 amended: three units registered up front, all completing. -/
theorem counter_returns_to_zero_at_most_once_witness :
    regsBeforeZero (Prepare false)
        [.process none, .close (some 3), .process none, .unit 0, .unit 0, .unit 1, .unit 1,
          .bridge, .bridge, .unit 1, .unit 2, .unit 2] = true ∧
    drops (wgHistory (Prepare false)
        [.process none, .close (some 3), .process none, .unit 0, .unit 0, .unit 1, .unit 1,
          .bridge, .bridge, .unit 1, .unit 2, .unit 2]) ≤ 1 :=
  ⟨by decide, counter_returns_to_zero_at_most_once false _ (by decide)⟩

theorem mem_of_getElem?_eq_some {l : List GoUnit} {i : Nat} {u : GoUnit}
    (h : l[i]? = some u) : u ∈ l := by
  rw [List.getElem?_eq_some] at h
  obtain ⟨hi, rfl⟩ := h
  exact List.getElem_mem hi

theorem quiet_step {s t : Session} {l : Label} (h : SessionInv s) (hq : Quiet s)
    (hc : s.crashed = false) (hs : Step s l t)
    (hreg : l.isReg = false ∨ s.wait = .idle) : Quiet t := by
  have habs : s.wait = .idle → ¬ (s.waiter = .woken ∨ s.waiter = .exited) := by
    intro hw
    rw [h.wait.absent hw]
    simp
  cases hs with
  | process r =>
    rcases hreg with hr | hw
    · simp [Label.isReg] at hr
    · intro hp; exact absurd hp (habs hw)
  | close r =>
    rcases hreg with hr | hw
    · simp [Label.isReg] at hr
    · intro hp; exact absurd hp (habs hw)
  | unit i t hu =>
    intro hp
    exfalso
    cases hu with
    | ret u hu hpc e hr =>
      have := hq hp u (mem_of_getElem?_eq_some hu)
      rw [hpc] at this; cases this
    | retNil u hu hpc hr =>
      have := hq hp u (mem_of_getElem?_eq_some hu)
      rw [hpc] at this; cases this
    | panic u hu e hpc hc =>
      have := hq hp u (mem_of_getElem?_eq_some hu)
      rw [hpc] at this; cases this
    | send u hu e hpc hc hb =>
      have := hq hp u (mem_of_getElem?_eq_some hu)
      rw [hpc] at this; cases this
    | done u hu hpc =>
      have := hq hp u (mem_of_getElem?_eq_some hu)
      rw [hpc] at this; cases this
  | wait x hw => intro hp; simp at hp
  | waiterWake hw h0 =>
    intro _ u hu
    have hz : outstanding s.units = 0 := by
      have := h.counter
      rw [h0] at this
      exact_mod_cast this.symm
    have hcomp := (outstanding_eq_zero_iff s.units).mp hz u hu
    simp only [completed, decide_eq_true_eq] at hcomp
    rcases hcomp with hf | hp
    · exact hf
    · have := h.wait.panicked u hu hp
      rw [hc] at this; cases this
  | waiterClose hw => intro _; exact hq (Or.inl hw)
  | _ => exact hq

theorem regsBeforeWait_cons (s : Session) (l : Label) (ls : List Label) :
    regsBeforeWait s (l :: ls) = true ↔
      (l.isReg = false ∨ s.wait = .idle) ∧ regsBeforeWait (step s l) ls = true := by
  simp [regsBeforeWait]

theorem quiet_exec (ls : List Label) (s : Session) (h : SessionInv s) (hq : Quiet s)
    (hr : regsBeforeWait s ls = true) : Quiet (exec s ls) := by
  induction ls generalizing s with
  | nil => exact hq
  | cons l ls ih =>
    rw [regsBeforeWait_cons] at hr
    show Quiet (exec (step s l) ls)
    rcases step_eq_or_step s l with he | ⟨hc, hs⟩
    · rw [he] at hr ⊢
      exact ih s h hq hr.2
    · exact ih _ (inv_step h hs) (quiet_step h hq hc hs hr.1) hr.2

theorem quiet_prepare (ctx : Bool) : Quiet (Prepare ctx) := by
  intro hp
  simp [Prepare] at hp

theorem mem_closedSendsOf {i : Nat} {e : Err} {tr : List Event}
    (h : Event.sendClosed i e ∈ tr) : e ∈ closedSendsOf i tr := by
  induction tr with
  | nil => simp at h
  | cons x t ih =>
    rcases List.mem_cons.mp h with rfl | hm
    · simp [closedSendsOf]
    · cases x <;> simp only [closedSendsOf] <;> try exact ih hm
      split
      · exact List.mem_cons_of_mem _ (ih hm)
      · exact ih hm

theorem mem_sendsOf {i : Nat} {e : Err} {tr : List Event} :
    e ∈ sendsOf i tr → Event.send i e ∈ tr := by
  induction tr with
  | nil => simp [sendsOf]
  | cons x t ih =>
    intro h
    cases x with
    | send j e' =>
      simp only [sendsOf] at h
      split at h
      · rename_i hj
        subst hj
        rcases List.mem_cons.mp h with rfl | hm
        · exact List.mem_cons_self _ _
        · exact List.mem_cons_of_mem _ (ih hm)
      · exact List.mem_cons_of_mem _ (ih h)
    | _ => exact List.mem_cons_of_mem _ (ih h)

theorem crashed_step {s t : Session} {l : Label}
    (h : s.crashed = true → ∃ i e, Event.sendClosed i e ∈ s.trace) (hs : Step s l t) :
    t.crashed = true → ∃ i e, Event.sendClosed i e ∈ t.trace := by
  have mono : ∀ evs : List Event, s.crashed = true →
      ∃ i e, Event.sendClosed i e ∈ s.trace ++ evs := by
    intro evs hc
    obtain ⟨i, e, hm⟩ := h hc
    exact ⟨i, e, List.mem_append_left _ hm⟩
  cases hs with
  | unit i t hu =>
    cases hu with
    | panic u hu e hpc hc => intro _; exact ⟨i, e, by simp⟩
    | _ => exact mono _
  | bridgeExit hb hc => exact h
  | listener hl hd => exact h
  | waiterWake hw h0 => exact h
  | tick => exact h
  | _ => exact mono _

/-- After the all-closed branch, in a session without registrations after the
call of `Wait`: every unit has finished, the counter is zero, nothing was sent
on the closed channel and the process is alive. -/
theorem allClosed_quiet (ctx : Bool) (ls : List Label)
    (hr : regsBeforeWait (Prepare ctx) ls = true)
    (ha : Event.logAllClosed ∈ (exec (Prepare ctx) ls).trace) :
    (∀ u ∈ (exec (Prepare ctx) ls).units, u.pc = .finished) ∧
    (exec (Prepare ctx) ls).group.wg = 0 ∧
    (∀ i e, Event.sendClosed i e ∉ (exec (Prepare ctx) ls).trace) ∧
    (exec (Prepare ctx) ls).crashed = false := by
  have h := inv_exec ctx ls
  have hq := quiet_exec ls (Prepare ctx) (inv_prepare ctx) (quiet_prepare ctx) hr
  have hcr := exec_invariant (fun s => s.crashed = true → ∃ i e, Event.sendClosed i e ∈ s.trace)
    (fun _ _ _ h _ hs => crashed_step h hs) ls (Prepare ctx) (by simp [Prepare])
  generalize exec (Prepare ctx) ls = s at h hq ha hcr
  have hfin := hq (Or.inr (h.wait.doneClosed (h.wait.allClosed ha)))
  have hns : ∀ i e, Event.sendClosed i e ∉ s.trace := by
    intro i e hm
    have hmem := mem_closedSendsOf hm
    cases hu : s.units[i]? with
    | none =>
      have hlen : s.units.length ≤ i := by
        by_contra hn
        have := List.getElem?_eq_getElem (Nat.lt_of_not_le hn)
        rw [hu] at this; cases this
      rw [(h.units.absent i hlen).2.1] at hmem
      simp at hmem
    | some u =>
      have hc := (h.units.present i u hu).closed
      rw [hfin u (mem_of_getElem?_eq_some hu)] at hc
      rw [hc] at hmem
      simp at hmem
  refine ⟨hfin, ?_, hns, ?_⟩
  · rw [h.counter]
    have : outstanding s.units = 0 := by
      rw [outstanding_eq_zero_iff]
      intro u hu
      simp [completed, hfin u hu]
    simp [this]
  · cases hc : s.crashed with
    | false => rfl
    | true =>
      obtain ⟨i, e, hm⟩ := hcr hc
      exact absurd hm (hns i e)

theorem append_eq_split {α : Type} (tr evs pre post : List α) (x : α)
    (h : tr ++ evs = pre ++ x :: post) :
    (∃ post', tr = pre ++ x :: post') ∨ (∃ a b, evs = a ++ x :: b ∧ pre = tr ++ a) := by
  rcases List.append_eq_append_iff.mp h with ⟨a, hp, he⟩ | ⟨c, ht, hc⟩
  · exact Or.inr ⟨a, post, he, hp⟩
  · cases c with
    | nil =>
      simp only [List.nil_append] at hc
      simp only [List.append_nil] at ht
      exact Or.inr ⟨[], post, by simp [hc], by simp [ht]⟩
    | cons y c' =>
      simp only [List.cons_append, List.cons.injEq] at hc
      obtain ⟨rfl, _⟩ := hc
      exact Or.inl ⟨c', ht⟩

theorem doneOrdered_extend {tr evs : List Event} (h : DoneOrdered tr)
    (hev : ∀ i a b, evs = a ++ Event.done i :: b →
      ∃ r, Event.ret i r ∈ tr ++ a ∧
        ∀ e, r = some e → Event.send i e ∈ tr ++ a ∨ Event.sendClosed i e ∈ tr ++ a) :
    DoneOrdered (tr ++ evs) := by
  intro i pre post heq
  rcases append_eq_split tr evs pre post (Event.done i) heq with ⟨post', ht⟩ | ⟨a, b, he, hp⟩
  · exact h i pre post' ht
  · rw [hp]
    exact hev i a b he

theorem doneOrdered_extend_other {tr : List Event} (h : DoneOrdered tr) (ev : Event)
    (hne : ∀ i, ev ≠ Event.done i) : DoneOrdered (tr ++ [ev]) := by
  apply doneOrdered_extend h
  intro i a b he
  exfalso
  cases a with
  | nil =>
    simp only [List.nil_append, List.cons.injEq] at he
    exact hne i he.1
  | cons y a' =>
    simp only [List.cons_append, List.cons.injEq] at he
    have := he.2
    cases a' <;> simp at this

theorem doneOrdered_step {s t : Session} {l : Label} (hu : UnitsInv s)
    (h : DoneOrdered s.trace) (hs : Step s l t) : DoneOrdered t.trace := by
  cases hs with
  | unit i t hst =>
    cases hst with
    | ret u hu' hpc e hr => exact doneOrdered_extend_other h _ (by intro j hj; cases hj)
    | retNil u hu' hpc hr => exact doneOrdered_extend_other h _ (by intro j hj; cases hj)
    | send u hu' e hpc hc hb => exact doneOrdered_extend_other h _ (by intro j hj; cases hj)
    | panic u hu' e hpc hc =>
      have f := hu.present i u hu'
      have hr := f.sending e hpc
      have hret : Event.ret i (some e) ∈ s.trace := by
        have := f.rets (by rw [hpc]; simp)
        rwa [hr] at this
      apply doneOrdered_extend h
      intro j a b he
      cases a with
      | nil => simp at he
      | cons y a' =>
        simp only [List.cons_append, List.cons.injEq] at he
        obtain ⟨rfl, he2⟩ := he
        cases a' with
        | nil =>
          simp only [List.nil_append, List.cons.injEq, Event.done.injEq] at he2
          obtain ⟨rfl, _⟩ := he2
          refine ⟨some e, by simp [hret], ?_⟩
          intro e' he'
          cases he'
          right; simp
        | cons z a'' =>
          simp only [List.cons_append, List.cons.injEq] at he2
          have := he2.2
          cases a'' <;> simp at this
    | done u hu' hpc =>
      have f := hu.present i u hu'
      have hret : Event.ret i u.ret ∈ s.trace := f.rets (by rw [hpc]; simp)
      have hsends := f.sends
      apply doneOrdered_extend h
      intro j a b he
      cases a with
      | nil =>
        simp only [List.nil_append, List.cons.injEq, Event.done.injEq] at he
        obtain ⟨rfl, _⟩ := he
        refine ⟨u.ret, by simpa using hret, ?_⟩
        intro e' he'
        left
        simp only [List.append_nil]
        apply mem_sendsOf
        rw [hsends, hpc, he']
        simp
      | cons y a' =>
        simp only [List.cons_append, List.cons.injEq] at he
        have := he.2
        cases a' <;> simp at this
  | process r => exact doneOrdered_extend_other h _ (by intro j hj; cases hj)
  | close r => exact doneOrdered_extend_other h _ (by intro j hj; cases hj)
  | bridgeExit hb hc => exact h
  | bridgeHook e hb => exact doneOrdered_extend_other h _ (by intro j hj; cases hj)
  | bridgeCancel hb => exact doneOrdered_extend_other h _ (by intro j hj; cases hj)
  | parentCancel => exact doneOrdered_extend_other h _ (by intro j hj; cases hj)
  | osSignal hs hl => exact doneOrdered_extend_other h _ (by intro j hj; cases hj)
  | listener hl hd => exact h
  | observer ho hd => exact doneOrdered_extend_other h _ (by intro j hj; cases hj)
  | wait x hw => exact doneOrdered_extend_other h _ (by intro j hj; cases hj)
  | waiterWake hw h0 => exact h
  | waiterClose hw => exact doneOrdered_extend_other h _ (by intro j hj; cases hj)
  | selectDone hw hd => exact doneOrdered_extend_other h _ (by intro j hj; cases hj)
  | selectTimeout hw hd => exact doneOrdered_extend_other h _ (by intro j hj; cases hj)
  | closeErrors hw => exact doneOrdered_extend_other h _ (by intro j hj; cases hj)
  | tick => exact h

theorem doneOrdered_exec (ctx : Bool) (ls : List Label) :
    DoneOrdered (exec (Prepare ctx) ls).trace := by
  have := exec_invariant (fun s => UnitsInv s ∧ DoneOrdered s.trace)
    (fun s l t h _ hs => ⟨unitsInv_step h.1 hs, doneOrdered_step h.1 h.2 hs⟩)
    ls (Prepare ctx) ⟨(inv_prepare ctx).units, by
      intro i pre post h
      simp [Prepare] at h⟩
  exact this.2

end Graceful

namespace Graceful

/-- C1 as stated fails on the timeout branch: with one unit registered and
still running, `Wait(0)` takes the timeout branch and closes the channel while
the counter is 1; when the unit's `fn` then returns an error, its send meets
the closed channel. -/
theorem wait_timeout_closes_with_unit_outstanding :
    (exec (Prepare false) [.process (some 7), .wait 0, .selectTimeout]).wait = .closing ∧
    (exec (Prepare false) [.process (some 7), .wait 0, .selectTimeout]).group.wg = 1 ∧
    (exec (Prepare false)
        [.process (some 7), .wait 0, .selectTimeout, .closeErrors]).group.errorsClosed = true ∧
    (exec (Prepare false)
        [.process (some 7), .wait 0, .selectTimeout, .closeErrors]).group.wg = 1 ∧
    (exec (Prepare false)
        [.process (some 7), .wait 0, .selectTimeout, .closeErrors, .unit 0, .unit 0]).trace
      = [.add, .waitCall 0, .logTimeout, .closeErrors, .ret 0 (some 7), .sendClosed 0 7,
          .done 0] ∧
    (exec (Prepare false)
        [.process (some 7), .wait 0, .selectTimeout, .closeErrors, .unit 0, .unit 0]).crashed
      = true := by
  decide

/-- C1 amended: in a session with one `Wait` call and no registration after
it, once `Wait` has taken the all-closed branch (so both just before and
after its `close(g.errors)`) the counter is zero, every unit has finished, no
unit has sent on the closed channel and none can, the process being alive with
nothing left to run in any unit.  On the timeout branch the channel is closed
whatever the counter is: with one unit registered the counter is still 1
after the close. -/
theorem wait_allClosed_closes_at_counter_zero (ctx : Bool) (ls : List Label)
    (hr : regsBeforeWait (Prepare ctx) ls = true)
    (ha : Event.logAllClosed ∈ (exec (Prepare ctx) ls).trace) :
    (exec (Prepare ctx) ls).group.wg = 0 ∧
    (∀ u ∈ (exec (Prepare ctx) ls).units, u.pc = .finished) ∧
    (∀ i e, Event.sendClosed i e ∉ (exec (Prepare ctx) ls).trace) ∧
    (exec (Prepare ctx) ls).crashed = false ∧
    (∀ i, stepUnit (exec (Prepare ctx) ls) i = none) ∧
    (∀ (t : Int) (r : Option Err),
        (exec (Process (Prepare ctx) () (fun _ => r))
          (.wait t :: (List.replicate t.toNat .tick
            ++ [.selectTimeout, .closeErrors]))).group
          = { wg := 1, errorsClosed := true }) := by
  obtain ⟨hfin, hwg, hns, hcr⟩ := allClosed_quiet ctx ls hr ha
  refine ⟨hwg, hfin, hns, hcr, ?_, ?_⟩
  · intro i
    cases hst : stepUnit (exec (Prepare ctx) ls) i with
    | none => rfl
    | some t =>
      exfalso
      have hu := stepUnit_cases hst
      cases hu with
      | ret u hu hpc e hr' =>
        have := hfin u (mem_of_getElem?_eq_some hu); rw [hpc] at this; cases this
      | retNil u hu hpc hr' =>
        have := hfin u (mem_of_getElem?_eq_some hu); rw [hpc] at this; cases this
      | panic u hu e hpc hc =>
        have := hfin u (mem_of_getElem?_eq_some hu); rw [hpc] at this; cases this
      | send u hu e hpc hc hb =>
        have := hfin u (mem_of_getElem?_eq_some hu); rw [hpc] at this; cases this
      | done u hu hpc =>
        have := hfin u (mem_of_getElem?_eq_some hu); rw [hpc] at this; cases this
  · intro t r
    rw [wait_timeout_run _ t (by cases ctx <;> rfl) (by cases ctx <;> rfl)]
    cases ctx <;> rfl

/-- Witness for C1 amended: one unit reports an error, the bridge handles it,
the unit finishes, and `Wait(5)` takes the all-closed branch. -/
theorem wait_allClosed_closes_at_counter_zero_witness :
    regsBeforeWait (Prepare false)
        [.process (some 7), .unit 0, .unit 0, .bridge, .bridge, .unit 0, .wait 5, .waiter,
          .waiter, .selectDone, .closeErrors] = true ∧
    Event.logAllClosed ∈ (exec (Prepare false)
        [.process (some 7), .unit 0, .unit 0, .bridge, .bridge, .unit 0, .wait 5, .waiter,
          .waiter, .selectDone, .closeErrors]).trace ∧
    (exec (Prepare false)
        [.process (some 7), .unit 0, .unit 0, .bridge, .bridge, .unit 0, .wait 5, .waiter,
          .waiter, .selectDone, .closeErrors]).group.wg = 0 :=
  ⟨by decide, by decide,
   (wait_allClosed_closes_at_counter_zero false
      [.process (some 7), .unit 0, .unit 0, .bridge, .bridge, .unit 0, .wait 5, .waiter,
        .waiter, .selectDone, .closeErrors] (by decide) (by decide)).1⟩

/-- C10 as stated fails: after `Wait(0)` has closed the channel on the timeout
branch, the send of a unit whose `fn` returns an error panics, the deferred
`wg.Done()` runs, and the counter is decremented although the bridge has
received nothing. -/
theorem done_without_receive_after_timeout_close :
    Event.done 0 ∈ (exec (Prepare false)
        [.process (some 7), .wait 0, .selectTimeout, .closeErrors, .unit 0, .unit 0]).trace ∧
    Event.ret 0 (some 7) ∈ (exec (Prepare false)
        [.process (some 7), .wait 0, .selectTimeout, .closeErrors, .unit 0, .unit 0]).trace ∧
    Event.send 0 7 ∉ (exec (Prepare false)
        [.process (some 7), .wait 0, .selectTimeout, .closeErrors, .unit 0, .unit 0]).trace ∧
    received (exec (Prepare false)
        [.process (some 7), .wait 0, .selectTimeout, .closeErrors, .unit 0, .unit 0]).trace
      = [] ∧
    (exec (Prepare false)
        [.process (some 7), .wait 0, .selectTimeout, .closeErrors, .unit 0, .unit 0]).group.wg
      = 0 := by
  decide

/-- C10 amended: in every state reached from `Prepare`, each `wg.Done()` of a
unit comes, in the trace, after the return of its `fn` and, when `fn` returned
a non-nil error whose send did not meet an already closed channel, after the
bridge has received that error.  Hence, in a session without registration
after the call of `Wait`, once `Wait` has taken the all-closed branch no send
has met a closed channel, each decrement follows the bridge's receipt of the
unit's error, no unit is at its send or still running `fn`, and the close of
the channel meets no sender. -/
theorem done_follows_return_and_send (ctx : Bool) (ls : List Label) :
    (∀ i pre post, (exec (Prepare ctx) ls).trace = pre ++ Event.done i :: post →
        ∃ r, Event.ret i r ∈ pre ∧
          ∀ e, r = some e → Event.sendClosed i e ∉ pre → Event.send i e ∈ pre) ∧
    (regsBeforeWait (Prepare ctx) ls = true →
      Event.logAllClosed ∈ (exec (Prepare ctx) ls).trace →
        (∀ i pre post, (exec (Prepare ctx) ls).trace = pre ++ Event.done i :: post →
          ∃ r, Event.ret i r ∈ pre ∧ ∀ e, r = some e → Event.send i e ∈ pre) ∧
        (∀ u ∈ (exec (Prepare ctx) ls).units, ∀ e, u.pc ≠ .sending e) ∧
        (∀ u ∈ (exec (Prepare ctx) ls).units, u.pc ≠ .running) ∧
        (∀ i e, Event.sendClosed i e ∉ (exec (Prepare ctx) ls).trace)) := by
  have hord := doneOrdered_exec ctx ls
  refine ⟨?_, ?_⟩
  · intro i pre post heq
    obtain ⟨r, hret, hsend⟩ := hord i pre post heq
    refine ⟨r, hret, ?_⟩
    intro e he hno
    rcases hsend e he with hs | hs
    · exact hs
    · exact absurd hs hno
  intro hr ha
  obtain ⟨hfin, _, hns, _⟩ := allClosed_quiet ctx ls hr ha
  refine ⟨?_, ?_, ?_, hns⟩
  · intro i pre post heq
    obtain ⟨r, hret, hsend⟩ := hord i pre post heq
    refine ⟨r, hret, ?_⟩
    intro e he
    rcases hsend e he with hs | hs
    · exact hs
    · exfalso
      apply hns i e
      rw [heq]
      exact List.mem_append_left _ hs
  · intro u hu e hpc
    rw [hfin u hu] at hpc; cases hpc
  · intro u hu hpc
    rw [hfin u hu] at hpc; cases hpc

/-- Witness for C10 amended: the decrement of unit 0 comes after the bridge
has received its error, and `Wait(5)` then takes the all-closed branch. -/
theorem done_follows_return_and_send_witness :
    (exec (Prepare false)
        [.process (some 7), .unit 0, .unit 0, .bridge, .bridge, .unit 0, .wait 5, .waiter,
          .waiter, .selectDone, .closeErrors]).trace
      = [.add, .ret 0 (some 7), .send 0 7, .hook 7, .cancel] ++ Event.done 0
          :: [.waitCall 5, .closeDone, .logAllClosed, .closeErrors] ∧
    ∃ r, Event.ret 0 r ∈ [Event.add, .ret 0 (some 7), .send 0 7, .hook 7, .cancel] ∧
      ∀ e, r = some e →
        Event.send 0 e ∈ [Event.add, .ret 0 (some 7), .send 0 7, .hook 7, .cancel] :=
  ⟨by decide,
   ((done_follows_return_and_send false
      [.process (some 7), .unit 0, .unit 0, .bridge, .bridge, .unit 0, .wait 5, .waiter,
        .waiter, .selectDone, .closeErrors]).2 (by decide) (by decide)).1 0
      [.add, .ret 0 (some 7), .send 0 7, .hook 7, .cancel]
      [.waitCall 5, .closeDone, .logAllClosed, .closeErrors] (by decide)⟩

/-- Witness for C2: two units report errors 1 and 2; the hook is called for 1
then for 2, and the derived signal is cancelled. -/
theorem bridge_handles_each_error_in_order_witness :
    received (exec (Prepare false)
        [.process (some 1), .close (some 2), .unit 0, .unit 1, .unit 0, .bridge, .bridge,
          .unit 1, .bridge, .bridge]).trace = [1, 2] ∧
    hookCalls (exec (Prepare false)
        [.process (some 1), .close (some 2), .unit 0, .unit 1, .unit 0, .bridge, .bridge,
          .unit 1, .bridge, .bridge]).trace
      = received (exec (Prepare false)
        [.process (some 1), .close (some 2), .unit 0, .unit 1, .unit 0, .bridge, .bridge,
          .unit 1, .bridge, .bridge]).trace ∧
    (exec (Prepare false)
        [.process (some 1), .close (some 2), .unit 0, .unit 1, .unit 0, .bridge, .bridge,
          .unit 1, .bridge, .bridge]).shutdownDone = true :=
  ⟨by decide,
   (bridge_handles_each_error_in_order false
      [.process (some 1), .close (some 2), .unit 0, .unit 1, .unit 0, .bridge, .bridge,
        .unit 1, .bridge, .bridge]).2.1 (by decide),
   (bridge_handles_each_error_in_order false
      [.process (some 1), .close (some 2), .unit 0, .unit 1, .unit 0, .bridge, .bridge,
        .unit 1, .bridge, .bridge]).2.2 (by decide) (by decide)⟩

/-- Witness for C3: with one unit still running, `Wait(2)` called from the
state after the registration takes the timeout branch after two ticks and
ends with the close. -/
theorem wait_closes_errors_once_at_end_witness :
    (exec (Prepare false) [.process none]).wait = .idle ∧
    (exec (exec (Prepare false) [.process none])
        (.wait 2 :: (List.replicate (2 : Int).toNat .tick
          ++ [.selectTimeout, .closeErrors]))).trace
      = (exec (Prepare false) [.process none]).trace
          ++ [.waitCall 2, .logTimeout, .closeErrors] :=
  ⟨by decide,
   ((wait_closes_errors_once_at_end false [.process none] 2).2.2.2.1 (by decide)).2⟩

/-- Witness for C5: a unit spawned by `Process` whose `fn` returns nil and a
unit spawned by `Close` whose `fn` returns an error; the counter is 2 after
the registrations, 1 after the `Close` unit has sent and run `wg.Done()`, and
0 after the `Process` unit has run `wg.Done()`. -/
theorem counter_counts_outstanding_units_witness :
    (exec (Prepare false) [.process none, .close (some 5)]).group.wg = 2 ∧
    (exec (exec (Prepare false) [.process none, .close (some 5)])
        [.unit 1, .unit 1, .unit 1]).group.wg = 1 ∧
    (exec (exec (Prepare false) [.process none, .close (some 5)])
        [.unit 1, .unit 1, .unit 1]).group.wg
      = (exec (Prepare false) [.process none, .close (some 5)]).group.wg - 1 ∧
    (exec (exec (Prepare false) [.process none, .close (some 5)])
        [.unit 1, .unit 1, .unit 1]).units[1]?
      = some { viaClose := true, ret := some 5, pc := .finished } ∧
    (exec (exec (Prepare false) [.process none, .close (some 5), .unit 1, .unit 1, .unit 1])
        [.unit 0, .unit 0]).group.wg = 0 ∧
    (exec (exec (Prepare false) [.process none, .close (some 5), .unit 1, .unit 1, .unit 1])
        [.unit 0, .unit 0]).group.wg
      = (exec (Prepare false)
          [.process none, .close (some 5), .unit 1, .unit 1, .unit 1]).group.wg - 1 :=
  ⟨by decide, by decide,
   ((counter_counts_outstanding_units false [.process none, .close (some 5)]).2.2.2.2.2.2.2.2.2.1
      1 { viaClose := true, ret := some 5, pc := .running } 5
      (by decide) (by decide) rfl rfl (by decide) (by decide)).1,
   ((counter_counts_outstanding_units false [.process none, .close (some 5)]).2.2.2.2.2.2.2.2.2.1
      1 { viaClose := true, ret := some 5, pc := .running } 5
      (by decide) (by decide) rfl rfl (by decide) (by decide)).2.1,
   by decide,
   ((counter_counts_outstanding_units false
      [.process none, .close (some 5), .unit 1, .unit 1, .unit 1]).2.2.2.2.2.2.2.2.1
      0 { viaClose := false, ret := none, pc := .running }
      (by decide) (by decide) rfl rfl).1⟩

/-- Witness for C6: an error received by the bridge is handled and cancels the
derived signal, which was not cancelled before; so does an OS signal reaching
the listener; so does a cancellation of the parent; and `Prepare` on a
cancelled parent returns the signal cancelled. -/
theorem derived_signal_cancelled_by_each_trigger_witness :
    (exec (Prepare false) [.process (some 1), .unit 0, .unit 0]).shutdownDone = false ∧
    (exec (Prepare false) [.process (some 1), .unit 0, .unit 0]).bridge = .calling 1 ∧
    (exec (exec (Prepare false) [.process (some 1), .unit 0, .unit 0])
        [.bridge, .bridge]).shutdownDone = true ∧
    (exec (Prepare false) [.process (some 1), .unit 0, .unit 0, .bridge, .bridge]).shutdownDone
      = true ∧
    (exec (Prepare false) [.process none]).shutdownDone = false ∧
    (step (exec (Prepare false) [.process none]) .osSignal).shutdownDone = true ∧
    (step (exec (Prepare false) [.process none]) .parentCancel).shutdownDone = true ∧
    (exec (Prepare true) [.process none]).shutdownDone = true :=
  ⟨by decide, by decide,
   ((derived_signal_cancelled_by_each_trigger false
      [.process (some 1), .unit 0, .unit 0]).2.2.2.2.2.2.2.1 1 (by decide) (by decide)).1,
   (derived_signal_cancelled_by_each_trigger false
      [.process (some 1), .unit 0, .unit 0, .bridge, .bridge]).2.2.2.2.2.2.1
      (by decide) (by decide),
   by decide,
   ((derived_signal_cancelled_by_each_trigger false [.process none]).2.2.2.2.2.2.2.2.1
      (by decide) (by decide) (by decide)).1,
   ((derived_signal_cancelled_by_each_trigger false [.process none]).2.2.2.2.2.2.2.2.2
      (by decide)).1,
   (derived_signal_cancelled_by_each_trigger false [.process none]).2.2.2.2.2.1⟩

/-- Witness for C8: a unit registered with `Close` and one registered with
`Process`, run through the same schedule up to the bridge's hook call. -/
theorem close_same_effect_as_process_witness :
    untag (exec (Close (Prepare false) () (fun _ => some 3)) [.unit 0, .unit 0, .bridge])
      = untag (exec (Process (Prepare false) () (fun _ => some 3))
          [.unit 0, .unit 0, .bridge]) :=
  (close_same_effect_as_process (Prepare false) () (fun _ => some 3)
    [.unit 0, .unit 0, .bridge]).2.2.2.2.2.1

end Graceful
